import Mathlib

/-!
Verification of the `sql-table-creator` repository: a shallow embedding of
`slugify` and `create_table_sql_script` (src/sql-table-creator.py), together
with proofs and refutations of the specification's claims.

Modelling conventions:
* Python strings are Lean `String`s (ASCII-scoped model of the `re` calls);
  `slugify` returns `Option String` because the Python function implicitly
  returns `None` for a falsy (empty) input string.
* A pandas column is a name, a declared dtype label, and a list of cells.
  Integer cells carry their `Int` value (pandas integer dtypes cannot hold
  missing values), float cells are opaque (their values are never inspected
  by the program), string cells carry the string, and `missing` models
  `NaN`/`None`.
* Dynamically-typed arguments (`pkey`, `infer_nulls`) are modelled by a small
  Python-value type `PyVal` with Python's `==` semantics (`1 == True`).
* Each `raise` site becomes a distinct constructor of `PyErr`; fallible code
  returns `Except PyErr _`.
-/

/-! ## Python value model -/

/-- Model of a dynamically typed Python argument value (the fragment needed
by the script's argument checks). -/
inductive PyVal
  | pyNone
  | pyBool (b : Bool)
  | pyInt (n : Int)
  | pyStr (s : String)
  deriving DecidableEq

/-- Numeric view used by Python `==`: `True` compares equal to `1` and
`False` to `0` because `bool` is a subclass of `int`. -/
def PyVal.numView : PyVal → Option Int
  | .pyBool b => some (if b then 1 else 0)
  | .pyInt n => some n
  | _ => none

/-- Python `==` on the modelled values. -/
def pyEq (a b : PyVal) : Bool :=
  match a.numView, b.numView with
  | some m, some n => m = n
  | _, _ =>
    match a, b with
    | .pyStr s, .pyStr t => s = t
    | .pyNone, .pyNone => true
    | _, _ => false

/-! ## The identifier sanitizer `slugify`

Python source (lines 21-26):
  string = string.strip()
  string = re.sub(chr(92) ++ ".", "", string)         -- remove literal dots
  string = re.sub(chr(92) ++ "s+", "_", string)       -- whitespace runs to _
  string = re.sub("[^" ++ word ++ ".-]", "", string)  -- keep word chars, ., -
  return string.strip("_.- ").lower()
guarded by `if string:` (falsy input returns None). -/

/-- Python regex `\s` whitespace class (ASCII fragment). -/
def pySpace (c : Char) : Bool :=
  c = ' ' || c = '\t' || c = '\n' || c = '\r' || c = '\x0b' || c = '\x0c'

/-- Python regex word character `\w` (ASCII fragment). -/
def wordChar (c : Char) : Bool :=
  c.isAlphanum || c = '_'

/-- Characters kept by the third substitution `[^\w.-]` -> removed. -/
def keepChar (c : Char) : Bool :=
  wordChar c || c = '.' || c = '-'

/-- Characters stripped from both ends by `.strip("_.- ")`. -/
def stripChar (c : Char) : Bool :=
  c = '_' || c = '.' || c = '-' || c = ' '

/-- Remove the characters satisfying `p` from both ends of the list,
modelling Python's `str.strip`. -/
def trimEnds (p : Char → Bool) (l : List Char) : List Char :=
  ((l.dropWhile p).reverse.dropWhile p).reverse

/-- State machine for `re.sub(r"\s+", "_", s)`: each maximal run of
whitespace becomes a single underscore.  The flag records whether the
previous character was whitespace. -/
def collapseAux : Bool → List Char → List Char
  | _, [] => []
  | sp, c :: rest =>
    if pySpace c then
      if sp then collapseAux true rest else '_' :: collapseAux true rest
    else c :: collapseAux false rest

/-- The whole character pipeline of `slugify` on a nonempty input. -/
def slugChars (l : List Char) : List Char :=
  List.map Char.toLower
    (trimEnds stripChar
      (List.filter keepChar
        (collapseAux false
          ((trimEnds pySpace l).filter (fun c => !(c = '.' : Bool))))))

/-- Model of `slugify` on a Python `str` argument: `None` (here `none`) for
the empty (falsy) string, otherwise the sanitized token. -/
def slugify (s : String) : Option String :=
  if s = "" then none else some (String.mk (slugChars s.data))

/-- Model of `slugify` applied to a value that is either a string or `None`
(the code re-applies `slugify` to already-sanitized names, whose sanitized
form may itself be `None`). -/
def slugifyO : Option String → Option String
  | none => none
  | some s => slugify s

/-! ## Data model of the pandas DataFrame -/

/-- The pandas dtype labels handled by the script. -/
inductive Dtype
  | int8 | int16 | int32 | int64
  | uint8 | uint16 | uint32 | uint64
  | float16 | float32 | float64
  | object | category
  deriving DecidableEq

/-- The integer-family dtypes (line 115 of the source). -/
def Dtype.isIntFamily : Dtype → Bool
  | .int8 | .int16 | .int32 | .int64 | .uint8 | .uint16 | .uint32 | .uint64 => true
  | _ => false

/-- The text-like dtypes (line 107 of the source). -/
def Dtype.isStringLike : Dtype → Bool
  | .object | .category => true
  | _ => false

/-- One cell of a column.  Integer dtypes cannot hold missing values in
pandas; `missing` models `NaN`/`None` in float and object/category
columns.  Float values are never inspected, only their presence. -/
inductive Cell
  | intV (n : Int)
  | strV (s : String)
  | floatV
  | missing
  deriving DecidableEq

/-- A named column with its declared dtype and cells. -/
structure Column where
  name : String
  dtype : Dtype
  cells : List Cell
  deriving DecidableEq

/-- A DataFrame: an ordered sequence of named columns. -/
structure Df where
  cols : List Column
  deriving DecidableEq

/-- Placeholder column used only as the default of `List.getD`. -/
def dummyCol : Column := ⟨"", .int8, []⟩

/-! ## Type inference (lines 103-129) -/

/-- The integer values of a column's cells, in order. -/
def intVals (cells : List Cell) : List Int :=
  cells.filterMap fun c => match c with | .intV n => some n | _ => none

/-- `series.min()` of an integer column; `none` models the `NaN` an empty
series yields (and `NaN == 0` is false). -/
def colMin (cells : List Cell) : Option Int := (intVals cells).min?

/-- `series.max()` of an integer column. -/
def colMax (cells : List Cell) : Option Int := (intVals cells).max?

/-- The lengths of the non-missing string values, modelling
`series.str.len()` with `NaN` entries skipped by `.max()`. -/
def strLens (cells : List Cell) : List Nat :=
  cells.filterMap fun c => match c with | .strV s => some s.length | _ => none

/-- The width-label table of lines 118-125: SMALLINT for int8/int16/uint8,
INT for int32/uint16, BIGINT for int64/uint32, else NUMERIC. -/
def widthSqlType (d : Dtype) : String :=
  if d = .int8 || d = .int16 || d = .uint8 then "SMALLINT"
  else if d = .int32 || d = .uint16 then "INT"
  else if d = .int64 || d = .uint32 then "BIGINT"
  else "NUMERIC"

/-- The per-column body of the inference loop (lines 104-129).  A text-like
column with no non-missing value makes `int(col_length)` raise
`ValueError: cannot convert float NaN to integer`, modelled by
`conversionNaN` below. -/
inductive PyErr
  | duplicateColumns
  | inferNullsNotBool
  | conversionNaN
  | pkeyNotString
  | pkeyUnknown
  | pkeyNull
  | indexNotFound
  | overwriteUnknown
  | formatBroken
  | indexError
  deriving DecidableEq

/-- SQL type inferred for one column (the loop body, lines 104-129). -/
def sqlTypeOf (varchar_max : Bool) (col : Column) : Except PyErr String :=
  if col.dtype.isStringLike then
    if varchar_max then .ok "TEXT"
    else
      match (strLens col.cells).max? with
      | some n => .ok ("VARCHAR(" ++ toString n ++ ")")
      | none => .error .conversionNaN
  else if col.dtype.isIntFamily then
    if colMin col.cells = some 0 && colMax col.cells = some 1 then .ok "BIT"
    else .ok (widthSqlType col.dtype)
  else
    .ok "NUMERIC"

/-- The inference loop over all columns, stopping at the first raise. -/
def inferTypes (varchar_max : Bool) (cols : List Column) : Except PyErr (List String) :=
  cols.mapM (sqlTypeOf varchar_max)

/-! ## Name lists (lines 96-101) -/

/-- `sql_col_names = [slugify(c) for c in column_names]`. -/
def sqlColNames (df : Df) : List (Option String) :=
  df.cols.map fun c => slugify c.name

/-- Whether a column has no missing value (`df.notnull().all()`). -/
def hasNoNull (c : Column) : Bool :=
  c.cells.all fun x => x ≠ Cell.missing

/-- `not_null_columns`: slugified names of columns without missing values. -/
def notNullSlugs (df : Df) : List (Option String) :=
  (df.cols.filter hasNoNull).map fun c => slugify c.name

/-- Python `list.index` semantics: index of the first element equal to
`key` (the caller must know the element is present, else `ValueError`). -/
def pyIndex (names : List (Option String)) (key : Option String) : Nat :=
  names.findIdx fun s => s == key

/-! ## Constraint passes (lines 132-162) -/

/-- The primary-key pass (lines 133-144). -/
def applyPkey (pkey : PyVal) (names nn : List (Option String)) (types : List String) :
    Except PyErr (List String) :=
  match pkey with
  | .pyNone => .ok types
  | .pyStr p =>
    if slugify p ∈ names then
      if slugify p ∈ nn then
        let i := pyIndex names (slugify p)
        .ok (types.set i (types.getD i "" ++ " PRIMARY KEY"))
      else .error .pkeyNull
    else .error .pkeyUnknown
  | _ => .error .pkeyNotString

/-- One iteration of the NOT NULL loop (lines 151-153).  Note the source
slugifies the already-slugified name again before looking it up; an absent
key makes `list.index` raise `ValueError`. -/
def nnStep (names : List (Option String)) (ts : List String) (col : Option String) :
    Except PyErr (List String) :=
  if slugifyO col ∈ names then
    .ok (ts.set (pyIndex names (slugifyO col))
      (ts.getD (pyIndex names (slugifyO col)) "" ++ " NOT NULL"))
  else .error .indexNotFound

/-- The NOT NULL pass (lines 148-153).  When a primary key was designated,
its slug is removed (first occurrence) from the not-null list first; the
earlier primary-key pass guarantees it is present, so plain `List.erase` is
a faithful model of `list.remove` here. -/
def applyNotNull (infer_nulls pkey : PyVal) (names nn : List (Option String))
    (types : List String) : Except PyErr (List String) :=
  if pyEq infer_nulls (.pyBool true) then
    let nn' := match pkey with
      | .pyNone => nn
      | .pyStr p => nn.erase (slugify p)
      | _ => nn
    nn'.foldlM (nnStep names) types
  else .ok types

/-- One iteration of the overwrite loop (lines 158-162). -/
def ovStep (names : List (Option String)) (ts : List String) (kv : String × String) :
    Except PyErr (List String) :=
  if slugify kv.1 ∈ names then
    .ok (ts.set (pyIndex names (slugify kv.1)) kv.2)
  else .error .overwriteUnknown

/-- The overwrite pass (lines 157-162); the dict is an ordered association
list, iterated in insertion order. -/
def applyOverwrite (overwrite : Option (List (String × String)))
    (names : List (Option String)) (types : List String) : Except PyErr (List String) :=
  match overwrite with
  | none => .ok types
  | some ov => ov.foldlM (ovStep names) types

/-! ## Rendering (lines 165-173) -/

/-- Python `str.format` of a name that may be `None`: `"{}".format(None)`
produces the text `None`. -/
def fmtArg : Option String → String
  | none => "None"
  | some s => s

/-- Model of `template.format(args...)` with auto-numbered `\x7b\x7d` fields:
inserted arguments are spliced verbatim, `\x7b\x7b`/`\x7d\x7d` are literal
braces, a field with no remaining argument raises `IndexError`, and any
other stray brace raises.  This matters because line 172 re-formats the
whole accumulated statement, so braces smuggled in through `table_name` or
an overwrite value break later iterations. -/
def pyFormat : List Char → List String → Except PyErr (List Char)
  | [], _ => .ok []
  | [c], _ =>
    if c = '\x7b' || c = '\x7d' then .error .formatBroken else .ok [c]
  | c :: d :: rest, args =>
    if c = '\x7b' then
      if d = '\x7b' then (pyFormat rest args).map fun r => '\x7b' :: r
      else if d = '\x7d' then
        match args with
        | [] => .error .indexError
        | a :: as => (pyFormat rest as).map fun r => a.data ++ r
      else .error .formatBroken
    else if c = '\x7d' then
      if d = '\x7d' then (pyFormat rest args).map fun r => '\x7d' :: r
      else .error .formatBroken
    else (pyFormat (d :: rest) args).map fun r => c :: r

/-- Rendering, lines 165-173.  The first line's `format` call has a literal
template whose fields exactly consume its arguments, so it is plain
splicing; every later iteration formats the accumulated statement as part
of the template (the source quirk kept by `pyFormat`). -/
def renderScript (table_name : Option String) (names : List (Option String))
    (types : List String) : Except PyErr String :=
  match names, types with
  | [], _ => .error .indexError
  | _ :: _, [] => .error .indexError
  | n0 :: rest, t0 :: trest =>
    let base : String :=
      match table_name with
      | some tn =>
        if tn = "" then "CREATE TABLE no_name ( \n" ++ fmtArg n0 ++ " " ++ t0
        else "CREATE TABLE " ++ tn ++ " ( \n" ++ fmtArg n0 ++ " " ++ t0
      | none => "CREATE TABLE no_name ( \n" ++ fmtArg n0 ++ " " ++ t0
    match (rest.zip trest).foldlM
        (fun stmt nt => pyFormat (stmt ++ ("\n, \x7b\x7d \x7b\x7d").data)
          [fmtArg nt.1, nt.2]) base.data with
    | .error e => .error e
    | .ok final => .ok (String.mk (final ++ ("\n);").data))

/-! ## The whole function (lines 29-175) -/

/-- Lines 82-162: validation, inference and the three constraint passes,
producing the final `(sql_col_names, sql_col_types)` pair consumed by the
renderer. -/
def scriptColumns (df : Df) (pkey : PyVal) (varchar_max : Bool) (infer_nulls : PyVal)
    (overwrite : Option (List (String × String))) :
    Except PyErr (List (Option String) × List String) :=
  if (df.cols.map Column.name).dedup.length < (df.cols.map Column.name).length then
    .error .duplicateColumns
  else if !(pyEq infer_nulls (.pyBool true) || pyEq infer_nulls (.pyBool false)) then
    .error .inferNullsNotBool
  else
    match inferTypes varchar_max df.cols with
    | .error e => .error e
    | .ok ts0 =>
      match applyPkey pkey (sqlColNames df) (notNullSlugs df) ts0 with
      | .error e => .error e
      | .ok ts1 =>
        match applyNotNull infer_nulls pkey (sqlColNames df) (notNullSlugs df) ts1 with
        | .error e => .error e
        | .ok ts2 =>
          match applyOverwrite overwrite (sqlColNames df) ts2 with
          | .error e => .error e
          | .ok ts3 => .ok (sqlColNames df, ts3)

/-- The public operation `create_table_sql_script`. -/
def create_table_sql_script (df : Df) (table_name : Option String) (pkey : PyVal)
    (varchar_max : Bool) (infer_nulls : PyVal)
    (overwrite : Option (List (String × String))) : Except PyErr String :=
  match scriptColumns df pkey varchar_max infer_nulls overwrite with
  | .error e => .error e
  | .ok (names, types) => renderScript table_name names types

/-! ## Helper lemmas about integer minima and maxima -/

instance : Std.Antisymm ((· : Int) ≤ ·) := ⟨by intros; omega⟩

theorem intMin?_eq_some_iff {l : List Int} {a : Int} :
    l.min? = some a ↔ a ∈ l ∧ ∀ b ∈ l, a ≤ b :=
  List.min?_eq_some_iff Int.le_refl (fun a b => min_choice a b)
    (fun _ _ _ => le_min_iff)

theorem intMax?_eq_some_iff {l : List Int} {a : Int} :
    l.max? = some a ↔ a ∈ l ∧ ∀ b ∈ l, b ≤ a :=
  List.max?_eq_some_iff Int.le_refl (fun a b => max_choice a b)
    (fun _ _ _ => max_le_iff)

theorem intFamily_not_stringLike {d : Dtype} (h : d.isIntFamily = true) :
    d.isStringLike = false := by
  cases d <;> simp_all [Dtype.isIntFamily, Dtype.isStringLike]

/-- On an integer-family column whose values are not all inside the set
containing 0 and 1, the BIT test `min()==0 and max()==1` fails and the
width-label table decides the type. -/
theorem sqlTypeOf_width (varchar_max : Bool) (c : Column)
    (hint : c.dtype.isIntFamily = true)
    (hv : ∃ v ∈ intVals c.cells, ¬(v = 0 ∨ v = 1)) :
    sqlTypeOf varchar_max c = .ok (widthSqlType c.dtype) := by
  obtain ⟨v, hvmem, hv01⟩ := hv
  have hbit : (colMin c.cells = some 0 && colMax c.cells = some 1) = false := by
    by_contra hcon
    rw [Bool.not_eq_false, Bool.and_eq_true] at hcon
    obtain ⟨h0, h1⟩ := hcon
    rw [decide_eq_true_eq] at h0 h1
    have hlo : (0 : Int) ≤ v := (intMin?_eq_some_iff.1 h0).2 v hvmem
    have hhi : v ≤ (1 : Int) := (intMax?_eq_some_iff.1 h1).2 v hvmem
    exact hv01 (by omega)
  simp [sqlTypeOf, intFamily_not_stringLike hint, hint, hbit]

/-- The width-label table written out as a case split on the dtype. -/
theorem widthSqlType_eq (d : Dtype) :
    widthSqlType d =
      (if d = .int8 ∨ d = .int16 ∨ d = .uint8 then "SMALLINT"
       else if d = .int32 ∨ d = .uint16 then "INT"
       else if d = .int64 ∨ d = .uint32 then "BIGINT"
       else "NUMERIC") := by
  cases d <;> rfl

/-- C1: for an integer-family column whose values are not confined to
the pair of values 0 and 1, `create_table_sql_script` infers the SQL type
from the declared storage width label alone: int8, int16 and uint8 give
SMALLINT; int32 and uint16 give INT; int64 and uint32 give BIGINT; any
other width/signedness (uint64) gives NUMERIC. -/
theorem claim_C1 (varchar_max : Bool) (c : Column)
    (hint : c.dtype.isIntFamily = true)
    (hv : ∃ v ∈ intVals c.cells, ¬(v = 0 ∨ v = 1)) :
    sqlTypeOf varchar_max c =
      .ok (if c.dtype = .int8 ∨ c.dtype = .int16 ∨ c.dtype = .uint8 then "SMALLINT"
        else if c.dtype = .int32 ∨ c.dtype = .uint16 then "INT"
        else if c.dtype = .int64 ∨ c.dtype = .uint32 then "BIGINT"
        else "NUMERIC") := by
  rw [sqlTypeOf_width varchar_max c hint hv, widthSqlType_eq]

theorem claim_C1_witness :
    sqlTypeOf false ⟨"n", .uint64, [.intV 5]⟩ = .ok "NUMERIC" := by
  have h := claim_C1 false ⟨"n", .uint64, [.intV 5]⟩ (by rfl)
    ⟨5, by decide, by decide⟩
  exact h.trans (by rfl)

/-- C2 counterexample: an int8 column whose values all lie in the pair
0/1 (here all cells are 0) is rendered SMALLINT, not BIT, because the code
tests `min()==0 and max()==1`, which also requires the value 1 to occur. -/
theorem claim_C2_counterexample :
    (∀ v ∈ intVals [Cell.intV 0, Cell.intV 0], v = 0 ∨ v = 1) ∧
    sqlTypeOf false ⟨"flag", .int8, [.intV 0, .intV 0]⟩ = .ok "SMALLINT" :=
  ⟨by decide, rfl⟩

/-- C2 (amended): an integer-family column is rendered BIT exactly on the
condition the code tests, namely that the observed minimum is 0 and the
observed maximum is 1 — equivalently, both 0 and 1 occur and every value
lies in the pair 0/1 — regardless of the declared width. -/
theorem claim_C2_amended (varchar_max : Bool) (c : Column)
    (hint : c.dtype.isIntFamily = true)
    (h0 : (0 : Int) ∈ intVals c.cells) (h1 : (1 : Int) ∈ intVals c.cells)
    (hall : ∀ v ∈ intVals c.cells, v = 0 ∨ v = 1) :
    sqlTypeOf varchar_max c = .ok "BIT" := by
  have hmin : colMin c.cells = some 0 :=
    intMin?_eq_some_iff.2 ⟨h0, fun b hb => by rcases hall b hb with h | h <;> omega⟩
  have hmax : colMax c.cells = some 1 :=
    intMax?_eq_some_iff.2 ⟨h1, fun b hb => by rcases hall b hb with h | h <;> omega⟩
  simp [sqlTypeOf, intFamily_not_stringLike hint, hint, hmin, hmax]

theorem claim_C2_amended_witness :
    sqlTypeOf false ⟨"flag", .uint64, [.intV 1, .intV 0, .intV 1]⟩ = .ok "BIT" :=
  claim_C2_amended false ⟨"flag", .uint64, [.intV 1, .intV 0, .intV 1]⟩
    (by rfl) (by decide) (by decide) (by decide)

/-- C3 counterexample: with values not confined to 0/1, an 8-bit unsigned
column is rendered SMALLINT but a 16-bit unsigned column is rendered INT,
so the two are not both SMALLINT as claimed. -/
theorem claim_C3_counterexample :
    sqlTypeOf false ⟨"u8", .uint8, [.intV 2, .intV 3]⟩ = .ok "SMALLINT" ∧
    sqlTypeOf false ⟨"u16", .uint16, [.intV 2, .intV 3]⟩ = .ok "INT" :=
  ⟨rfl, rfl⟩

/-- C3 (amended): the width thresholds are indeed based on the storage
width label of the declared type rather than the true value range, but the
pairing is: an 8-bit unsigned column is classified SMALLINT, like the 8-
and 16-bit signed types, while a 16-bit unsigned column is classified INT,
like the 32-bit signed type (values not confined to 0/1 throughout). -/
theorem claim_C3_amended (cu8 cu16 ci16 ci32 : Column)
    (h8 : cu8.dtype = .uint8) (h16 : cu16.dtype = .uint16)
    (hi16 : ci16.dtype = .int16) (hi32 : ci32.dtype = .int32)
    (hv8 : ∃ v ∈ intVals cu8.cells, ¬(v = 0 ∨ v = 1))
    (hv16 : ∃ v ∈ intVals cu16.cells, ¬(v = 0 ∨ v = 1))
    (hvi16 : ∃ v ∈ intVals ci16.cells, ¬(v = 0 ∨ v = 1))
    (hvi32 : ∃ v ∈ intVals ci32.cells, ¬(v = 0 ∨ v = 1)) (varchar_max : Bool) :
    sqlTypeOf varchar_max cu8 = .ok "SMALLINT" ∧
    sqlTypeOf varchar_max ci16 = .ok "SMALLINT" ∧
    sqlTypeOf varchar_max cu16 = .ok "INT" ∧
    sqlTypeOf varchar_max ci32 = .ok "INT" := by
  refine ⟨?_, ?_, ?_, ?_⟩
  · rw [sqlTypeOf_width varchar_max cu8 (by rw [h8]; rfl) hv8, h8]; rfl
  · rw [sqlTypeOf_width varchar_max ci16 (by rw [hi16]; rfl) hvi16, hi16]; rfl
  · rw [sqlTypeOf_width varchar_max cu16 (by rw [h16]; rfl) hv16, h16]; rfl
  · rw [sqlTypeOf_width varchar_max ci32 (by rw [hi32]; rfl) hvi32, hi32]; rfl

theorem claim_C3_amended_witness :
    sqlTypeOf false ⟨"a", .uint8, [.intV 7]⟩ = .ok "SMALLINT" ∧
    sqlTypeOf false ⟨"b", .int16, [.intV 7]⟩ = .ok "SMALLINT" ∧
    sqlTypeOf false ⟨"c", .uint16, [.intV 7]⟩ = .ok "INT" ∧
    sqlTypeOf false ⟨"d", .int32, [.intV 7]⟩ = .ok "INT" :=
  claim_C3_amended ⟨"a", .uint8, [.intV 7]⟩ ⟨"c", .uint16, [.intV 7]⟩
    ⟨"b", .int16, [.intV 7]⟩ ⟨"d", .int32, [.intV 7]⟩ rfl rfl rfl rfl
    ⟨7, by decide, by decide⟩ ⟨7, by decide, by decide⟩
    ⟨7, by decide, by decide⟩ ⟨7, by decide, by decide⟩ false

/-- C10: a dataset with a text column all of whose values are missing
makes `create_table_sql_script` (with `varchar_max` false) fail with the
conversion error from `int(NaN)` instead of returning a DDL string: the
VARCHAR length is the maximum string length over non-missing values, which
does not exist here. -/
theorem claim_C10 :
    create_table_sql_script ⟨[⟨"c", .object, [.missing, .missing]⟩]⟩ none
      .pyNone false (.pyBool true) none = .error .conversionNaN := rfl

/-! ## Error propagation helpers -/

@[simp] theorem exceptBind_ok {ε α β : Type} (a : α) (f : α → Except ε β) :
    (Except.ok a >>= f) = f a := rfl

@[simp] theorem exceptBind_error {ε α β : Type} (e : ε) (f : α → Except ε β) :
    ((Except.error e : Except ε α) >>= f) = .error e := rfl

@[simp] theorem exceptPure {ε α : Type} (a : α) :
    (pure a : Except ε α) = .ok a := rfl

@[simp] theorem exceptMap_ok {ε α β : Type} (a : α) (f : α → β) :
    (Except.ok a : Except ε α).map f = .ok (f a) := rfl

@[simp] theorem exceptMap_error {ε α β : Type} (e : ε) (f : α → β) :
    (Except.error e : Except ε α).map f = .error e := rfl

theorem foldlM_error {β γ : Type} {step : γ → β → Except PyErr γ} {S : PyErr → Prop}
    (hstep : ∀ u b e, step u b = .error e → S e) :
    ∀ {l : List β} {ts : γ} {e}, l.foldlM step ts = .error e → S e := by
  intro l
  induction l with
  | nil => intro ts e h; simp [List.foldlM] at h
  | cons x xs ih =>
    intro ts e h
    rw [List.foldlM_cons] at h
    cases hx : step ts x with
    | error e' =>
      rw [hx] at h
      simp only [exceptBind_error, Except.error.injEq] at h
      exact h ▸ hstep ts x e' hx
    | ok u =>
      rw [hx] at h
      simp only [exceptBind_ok] at h
      exact ih h

theorem nnStep_error {names : List (Option String)} {ts : List String}
    {col : Option String} {e : PyErr} (h : nnStep names ts col = .error e) :
    e = .indexNotFound := by
  unfold nnStep at h
  split at h <;> simp_all

theorem ovStep_error {names : List (Option String)} {ts : List String}
    {kv : String × String} {e : PyErr} (h : ovStep names ts kv = .error e) :
    e = .overwriteUnknown := by
  unfold ovStep at h
  split at h <;> simp_all

theorem applyNotNull_error {inf pkey : PyVal} {names nn : List (Option String)}
    {ts : List String} {e : PyErr} (h : applyNotNull inf pkey names nn ts = .error e) :
    e = .indexNotFound := by
  unfold applyNotNull at h
  split at h
  · exact foldlM_error (S := fun e => e = .indexNotFound)
      (fun u b e' h' => nnStep_error h') h
  · simp at h

theorem applyOverwrite_error {ov : Option (List (String × String))}
    {names : List (Option String)} {ts : List String} {e : PyErr}
    (h : applyOverwrite ov names ts = .error e) : e = .overwriteUnknown := by
  unfold applyOverwrite at h
  cases ov with
  | none => simp at h
  | some l =>
    exact foldlM_error (S := fun e => e = .overwriteUnknown)
      (fun u b e' h' => ovStep_error h') h

theorem applyPkey_error {pkey : PyVal} {names nn : List (Option String)}
    {ts : List String} {e : PyErr} (h : applyPkey pkey names nn ts = .error e) :
    e = .pkeyNull ∨ e = .pkeyUnknown ∨ e = .pkeyNotString := by
  cases pkey with
  | pyNone => simp [applyPkey] at h
  | pyStr p =>
    simp only [applyPkey] at h
    split at h
    · split at h
      · simp at h
      · simp only [Except.error.injEq] at h
        exact Or.inl h.symm
    · simp only [Except.error.injEq] at h
      exact Or.inr (Or.inl h.symm)
  | pyBool b =>
    simp only [applyPkey, Except.error.injEq] at h
    exact Or.inr (Or.inr h.symm)
  | pyInt n =>
    simp only [applyPkey, Except.error.injEq] at h
    exact Or.inr (Or.inr h.symm)

theorem exceptMap_eq_error {a b : Type} {x : Except PyErr a} {f : a → b} {e : PyErr}
    (h : x.map f = .error e) : x = .error e := by
  cases x <;> simp_all

theorem pyFormat_error :
    ∀ (l : List Char) (args : List String) (e : PyErr),
      pyFormat l args = .error e → e = .indexError ∨ e = .formatBroken := by
  intro l args e h
  induction l, args using pyFormat.induct generalizing e with
  | case1 x => simp [pyFormat] at h
  | case2 c x hc =>
    rw [pyFormat.eq_def] at h
    simp only [] at h
    rw [if_pos hc] at h
    injection h with h
    exact Or.inr h.symm
  | case3 c x hc =>
    rw [pyFormat.eq_def] at h
    simp only [] at h
    rw [if_neg hc] at h
    simp at h
  | case4 rest args ih =>
    rw [pyFormat.eq_def] at h
    simp at h
    exact ih _ (exceptMap_eq_error h)
  | case5 rest hne =>
    rw [pyFormat.eq_def] at h
    simp at h
    exact Or.inl h.symm
  | case6 rest a as hne ih =>
    rw [pyFormat.eq_def] at h
    simp at h
    exact ih _ (exceptMap_eq_error h)
  | case7 d rest args hd1 hd2 =>
    rw [pyFormat.eq_def] at h
    simp [hd1, hd2] at h
    exact Or.inr h.symm
  | case8 rest args hne ih =>
    rw [pyFormat.eq_def] at h
    simp at h
    exact ih _ (exceptMap_eq_error h)
  | case9 d rest args hd hne =>
    rw [pyFormat.eq_def] at h
    simp [hd] at h
    exact Or.inr h.symm
  | case10 c d rest args hc1 hc2 ih =>
    rw [pyFormat.eq_def] at h
    simp [hc1, hc2] at h
    exact ih _ (exceptMap_eq_error h)

theorem renderScript_error {tn : Option String} {names : List (Option String)}
    {types : List String} {e : PyErr} (h : renderScript tn names types = .error e) :
    e = .indexError ∨ e = .formatBroken := by
  cases names with
  | nil =>
    rw [renderScript.eq_def] at h
    simp only [Except.error.injEq] at h
    exact Or.inl h.symm
  | cons n0 rest =>
    cases types with
    | nil =>
      rw [renderScript.eq_def] at h
      simp only [Except.error.injEq] at h
      exact Or.inl h.symm
    | cons t0 trest =>
      rw [renderScript.eq_def] at h
      simp only [] at h
      split at h
      · rename_i e' heq
        injection h with h
        exact h ▸ foldlM_error
          (S := fun x => x = .indexError ∨ x = .formatBroken)
          (fun u b e'' h'' => pyFormat_error _ _ _ h'') heq
      · simp at h

/-! ## Guard and pass reduction helpers -/

theorem dupGuard_pass {df : Df} (h : (df.cols.map Column.name).Nodup) :
    ¬((df.cols.map Column.name).dedup.length < (df.cols.map Column.name).length) := by
  rw [List.dedup_eq_self.2 h]
  exact Nat.lt_irrefl _

theorem inferGuard_pass (b : Bool) :
    (!(pyEq (.pyBool b) (.pyBool true) || pyEq (.pyBool b) (.pyBool false))) = false := by
  cases b <;> rfl

/-- C4: when `pkey` is a string whose sanitized form matches a sanitized
dataset column name but every column bearing that sanitized name contains
at least one missing value (in particular the unique matching column),
`create_table_sql_script` raises `PrimaryKeyNullError` and returns no DDL
string (assuming the earlier validation and inference steps pass, i.e.
raw names are unique and type inference succeeds). -/
theorem claim_C4 (df : Df) (tn : Option String) (vm b : Bool)
    (ov : Option (List (String × String))) (p : String) (ts : List String)
    (hnodup : (df.cols.map Column.name).Nodup)
    (hinfer : inferTypes vm df.cols = .ok ts)
    (hmem : slugify p ∈ sqlColNames df)
    (hnull : ∀ c ∈ df.cols, slugify c.name = slugify p → hasNoNull c = false) :
    create_table_sql_script df tn (.pyStr p) vm (.pyBool b) ov = .error .pkeyNull := by
  have hnn : slugify p ∉ notNullSlugs df := by
    intro hmem'
    unfold notNullSlugs at hmem'
    rw [List.mem_map] at hmem'
    obtain ⟨c, hc, hcs⟩ := hmem'
    rw [List.mem_filter] at hc
    rw [hnull c hc.1 hcs] at hc
    exact Bool.false_ne_true hc.2
  unfold create_table_sql_script scriptColumns
  rw [if_neg (dupGuard_pass hnodup), if_neg (by rw [inferGuard_pass]; exact Bool.false_ne_true)]
  rw [hinfer]
  simp only [applyPkey, if_pos hmem, if_neg hnn]

theorem claim_C4_witness :
    create_table_sql_script ⟨[⟨"id", .float64, [.floatV, .missing]⟩]⟩ none
      (.pyStr "id") false (.pyBool true) none = .error .pkeyNull :=
  claim_C4 ⟨[⟨"id", .float64, [.floatV, .missing]⟩]⟩ none false true none "id"
    ["NUMERIC"] (by decide) rfl (by decide) (by decide)

theorem create_error_iff {df : Df} {tn : Option String} {pkey : PyVal} {vm : Bool}
    {inf : PyVal} {ov : Option (List (String × String))} {e : PyErr} :
    create_table_sql_script df tn pkey vm inf ov = .error e ↔
    (scriptColumns df pkey vm inf ov = .error e ∨
     ∃ nt, scriptColumns df pkey vm inf ov = .ok nt ∧
       renderScript tn nt.1 nt.2 = .error e) := by
  unfold create_table_sql_script
  cases hsc : scriptColumns df pkey vm inf ov with
  | error e' => simp
  | ok nt => cases nt with | mk names types => simp

theorem applyPkey_str_error {p : String} {names nn : List (Option String)}
    {ts : List String} {e : PyErr}
    (h : applyPkey (.pyStr p) names nn ts = .error e) :
    e = .pkeyNull ∨ e = .pkeyUnknown := by
  simp only [applyPkey] at h
  split at h
  · split at h
    · simp at h
    · simp only [Except.error.injEq] at h
      exact Or.inl h.symm
  · simp only [Except.error.injEq] at h
    exact Or.inr h.symm

theorem scriptColumns_argtype_iff (df : Df) (vm : Bool) (inf pkey : PyVal)
    (ov : Option (List (String × String))) (ts : List String)
    (hnodup : (df.cols.map Column.name).Nodup)
    (hinfer : inferTypes vm df.cols = .ok ts) :
    (scriptColumns df pkey vm inf ov = .error .inferNullsNotBool ∨
     scriptColumns df pkey vm inf ov = .error .pkeyNotString) ↔
    ((pyEq inf (.pyBool true) = false ∧ pyEq inf (.pyBool false) = false) ∨
     ((pyEq inf (.pyBool true) = true ∨ pyEq inf (.pyBool false) = true) ∧
      pkey ≠ .pyNone ∧ (∀ s, pkey ≠ .pyStr s))) := by
  unfold scriptColumns
  rw [if_neg (dupGuard_pass hnodup)]
  by_cases hb : (!(pyEq inf (.pyBool true) || pyEq inf (.pyBool false))) = true
  · rw [if_pos hb]
    apply iff_of_true (Or.inl rfl)
    rw [Bool.not_eq_true', Bool.or_eq_false_iff] at hb
    exact Or.inl hb
  · rw [if_neg hb]
    have hb' : pyEq inf (.pyBool true) = true ∨ pyEq inf (.pyBool false) = true := by
      rw [← Bool.or_eq_true_iff]
      revert hb
      cases pyEq inf (.pyBool true) || pyEq inf (.pyBool false) <;> simp
    have hbfalse : ¬(pyEq inf (.pyBool true) = false ∧ pyEq inf (.pyBool false) = false) := by
      rintro ⟨h1, h2⟩
      rcases hb' with h | h
      · rw [h1] at h; exact Bool.false_ne_true h
      · rw [h2] at h; exact Bool.false_ne_true h
    rw [hinfer]
    cases pkey with
    | pyNone =>
      apply iff_of_false
      · simp only [applyPkey]
        cases hnn : applyNotNull inf .pyNone (sqlColNames df) (notNullSlugs df) ts with
        | error e' =>
          have he := applyNotNull_error hnn
          subst he
          simp
        | ok ts2 =>
          cases hov : applyOverwrite ov (sqlColNames df) ts2 with
          | error e' =>
            have he := applyOverwrite_error hov
            subst he
            simp [hov]
          | ok ts3 => simp [hov]
      · rintro (h | ⟨_, hne, _⟩)
        · exact hbfalse h
        · exact hne rfl
    | pyStr p =>
      apply iff_of_false
      · cases hpk : applyPkey (.pyStr p) (sqlColNames df) (notNullSlugs df) ts with
        | error e' =>
          rcases applyPkey_str_error hpk with h | h <;> subst h <;> simp [hpk]
        | ok ts1 =>
          cases hnn : applyNotNull inf (.pyStr p) (sqlColNames df) (notNullSlugs df) ts1 with
          | error e' =>
            have he := applyNotNull_error hnn
            subst he
            simp [hpk, hnn]
          | ok ts2 =>
            cases hov : applyOverwrite ov (sqlColNames df) ts2 with
            | error e' =>
              have he := applyOverwrite_error hov
              subst he
              simp [hpk, hnn, hov]
            | ok ts3 => simp [hpk, hnn, hov]
      · rintro (h | ⟨_, _, hne⟩)
        · exact hbfalse h
        · exact hne p rfl
    | pyBool c =>
      apply iff_of_true
      · exact Or.inr (by simp [applyPkey])
      · exact Or.inr ⟨hb', by simp, by simp⟩
    | pyInt n =>
      apply iff_of_true
      · exact Or.inr (by simp [applyPkey])
      · exact Or.inr ⟨hb', by simp, by simp⟩

theorem create_error_eq_scriptColumns {df : Df} {tn : Option String} {pkey : PyVal}
    {vm : Bool} {inf : PyVal} {ov : Option (List (String × String))} {e : PyErr}
    (he : e ≠ .indexError) (he2 : e ≠ .formatBroken) :
    create_table_sql_script df tn pkey vm inf ov = .error e ↔
    scriptColumns df pkey vm inf ov = .error e := by
  rw [create_error_iff]
  constructor
  · rintro (h | ⟨nt, hok, hr⟩)
    · exact h
    · rcases renderScript_error hr with h' | h'
      · exact absurd h' he
      · exact absurd h' he2
  · exact Or.inl

/-- C8 counterexample: the integer value 1 is not a boolean, yet the call
succeeds (Python's `1 in [True, False]` is true because `bool` is an `int`
subclass, and `1 == True` also makes the NOT NULL pass run), so the
function does not fail with a type error whenever `infer_nulls` is not a
boolean. -/
theorem claim_C8_counterexample :
    create_table_sql_script ⟨[⟨"a", .int64, [.intV 2]⟩]⟩ none .pyNone false
        (.pyInt 1) none = .ok "CREATE TABLE no_name ( \na BIGINT NOT NULL\n);" ∧
    PyVal.pyInt 1 ≠ .pyBool true ∧ PyVal.pyInt 1 ≠ .pyBool false :=
  ⟨rfl, by decide, by decide⟩

/-- C8 (amended): assuming raw column names are unique and type inference
succeeds, the call fails with the argument-type `TypeError` exactly when
`infer_nulls` compares Python-unequal (`==`) to both `True` and `False`
(so the integers 1 and 0 are accepted as booleans), or when `infer_nulls`
passes that test and `pkey` is given (not `None`) and is not a string. -/
theorem claim_C8_amended (df : Df) (tn : Option String) (vm : Bool) (inf pkey : PyVal)
    (ov : Option (List (String × String))) (ts : List String)
    (hnodup : (df.cols.map Column.name).Nodup)
    (hinfer : inferTypes vm df.cols = .ok ts) :
    (create_table_sql_script df tn pkey vm inf ov = .error .inferNullsNotBool ∨
     create_table_sql_script df tn pkey vm inf ov = .error .pkeyNotString) ↔
    ((pyEq inf (.pyBool true) = false ∧ pyEq inf (.pyBool false) = false) ∨
     ((pyEq inf (.pyBool true) = true ∨ pyEq inf (.pyBool false) = true) ∧
      pkey ≠ .pyNone ∧ (∀ s, pkey ≠ .pyStr s))) := by
  rw [create_error_eq_scriptColumns (by decide) (by decide),
    create_error_eq_scriptColumns (by decide) (by decide)]
  exact scriptColumns_argtype_iff df vm inf pkey ov ts hnodup hinfer

theorem claim_C8_amended_witness :
    create_table_sql_script ⟨[⟨"a", .int64, [.intV 2]⟩]⟩ none (.pyInt 7) false
        (.pyBool true) none = .error .inferNullsNotBool ∨
    create_table_sql_script ⟨[⟨"a", .int64, [.intV 2]⟩]⟩ none (.pyInt 7) false
        (.pyBool true) none = .error .pkeyNotString :=
  (claim_C8_amended ⟨[⟨"a", .int64, [.intV 2]⟩]⟩ none false (.pyBool true)
      (.pyInt 7) none ["BIGINT"] (by decide) rfl).2
    (Or.inr ⟨Or.inl rfl, by decide, fun s h => PyVal.noConfusion h⟩)

/-! ## Character-level facts for the sanitizer -/

theorem charNat_inj {a b : Char} (h : a.toNat = b.toNat) : a = b :=
  Char.ext (UInt32.toNat.inj h)

theorem char_eq_iff {a b : Char} : a = b ↔ a.toNat = b.toNat :=
  ⟨fun h => h ▸ rfl, charNat_inj⟩

theorem isUpper_iff {c : Char} : c.isUpper = true ↔ 65 ≤ c.toNat ∧ c.toNat ≤ 90 := by
  simp [Char.isUpper, Bool.and_eq_true, ge_iff_le, UInt32.le_def, BitVec.le_def]
  rfl

theorem isLower_iff {c : Char} : c.isLower = true ↔ 97 ≤ c.toNat ∧ c.toNat ≤ 122 := by
  simp [Char.isLower, Bool.and_eq_true, ge_iff_le, UInt32.le_def, BitVec.le_def]
  rfl

theorem isDigit_iff {c : Char} : c.isDigit = true ↔ 48 ≤ c.toNat ∧ c.toNat ≤ 57 := by
  simp [Char.isDigit, Bool.and_eq_true, ge_iff_le, UInt32.le_def, BitVec.le_def]
  rfl

theorem toNat_ofNat_valid {n : Nat} (h : n.isValidChar) : (Char.ofNat n).toNat = n := by
  rw [Char.ofNat, dif_pos h]
  rfl

theorem toNat_toLower (c : Char) :
    (Char.toLower c).toNat =
      if 65 ≤ c.toNat ∧ c.toNat ≤ 90 then c.toNat + 32 else c.toNat := by
  rw [Char.toLower]
  split
  · rename_i h
    exact toNat_ofNat_valid (Or.inl (by omega))
  · rfl

theorem pySpace_nat {c : Char} : pySpace c = true ↔
    (c.toNat = 32 ∨ c.toNat = 9 ∨ c.toNat = 10 ∨ c.toNat = 13 ∨
     c.toNat = 11 ∨ c.toNat = 12) := by
  simp only [pySpace, Bool.or_eq_true, decide_eq_true_eq, char_eq_iff,
    show (' ' : Char).toNat = 32 from rfl, show ('\t' : Char).toNat = 9 from rfl,
    show ('\n' : Char).toNat = 10 from rfl, show ('\r' : Char).toNat = 13 from rfl,
    show ('\x0b' : Char).toNat = 11 from rfl, show ('\x0c' : Char).toNat = 12 from rfl]
  tauto

theorem wordChar_nat {c : Char} : wordChar c = true ↔
    ((65 ≤ c.toNat ∧ c.toNat ≤ 90) ∨ (97 ≤ c.toNat ∧ c.toNat ≤ 122) ∨
     (48 ≤ c.toNat ∧ c.toNat ≤ 57) ∨ c.toNat = 95) := by
  simp only [wordChar, Char.isAlphanum, Char.isAlpha, Bool.or_eq_true,
    isUpper_iff, isLower_iff, isDigit_iff, decide_eq_true_eq, char_eq_iff,
    show ('_' : Char).toNat = 95 from rfl]
  tauto

theorem keepChar_nat {c : Char} : keepChar c = true ↔
    ((65 ≤ c.toNat ∧ c.toNat ≤ 90) ∨ (97 ≤ c.toNat ∧ c.toNat ≤ 122) ∨
     (48 ≤ c.toNat ∧ c.toNat ≤ 57) ∨ c.toNat = 95 ∨ c.toNat = 46 ∨
     c.toNat = 45) := by
  simp only [keepChar, Bool.or_eq_true, wordChar_nat, decide_eq_true_eq, char_eq_iff,
    show ('.' : Char).toNat = 46 from rfl, show ('-' : Char).toNat = 45 from rfl]
  tauto

theorem stripChar_nat {c : Char} : stripChar c = true ↔
    (c.toNat = 95 ∨ c.toNat = 46 ∨ c.toNat = 45 ∨ c.toNat = 32) := by
  simp only [stripChar, Bool.or_eq_true, decide_eq_true_eq, char_eq_iff,
    show ('_' : Char).toNat = 95 from rfl, show ('.' : Char).toNat = 46 from rfl,
    show ('-' : Char).toNat = 45 from rfl, show (' ' : Char).toNat = 32 from rfl]
  tauto

theorem dot_nat {c : Char} : c = '.' ↔ c.toNat = 46 := char_eq_iff

theorem toLower_keep {c : Char} (h : keepChar c = true) :
    keepChar (Char.toLower c) = true := by
  rw [keepChar_nat] at h ⊢
  rw [toNat_toLower]
  split <;> omega

theorem toLower_pySpace {c : Char} : pySpace (Char.toLower c) = pySpace c := by
  have h := toNat_toLower c
  cases hb : pySpace c
  · cases hb2 : pySpace (Char.toLower c)
    · rfl
    · rw [pySpace_nat] at hb2
      have hb3 : ¬(c.toNat = 32 ∨ c.toNat = 9 ∨ c.toNat = 10 ∨ c.toNat = 13 ∨
          c.toNat = 11 ∨ c.toNat = 12) := by
        intro hh
        rw [pySpace_nat.2 hh] at hb
        exact Bool.noConfusion hb
      split at h <;> omega
  · rw [pySpace_nat, h]
    rw [pySpace_nat] at hb
    split <;> omega

theorem toLower_dot {c : Char} (h : Char.toLower c = '.') : c = '.' := by
  rw [dot_nat] at h ⊢
  rw [toNat_toLower] at h
  split at h <;> omega

theorem toLower_strip {c : Char} (h : stripChar (Char.toLower c) = true) :
    stripChar c = true := by
  rw [stripChar_nat] at h ⊢
  rw [toNat_toLower] at h
  split at h <;> omega

theorem toLower_idem (c : Char) :
    Char.toLower (Char.toLower c) = Char.toLower c := by
  apply charNat_inj
  have h1 := toNat_toLower c
  have h2 := toNat_toLower (Char.toLower c)
  rw [h1] at h2
  rw [h2, h1]
  split <;> (try split) <;> omega

/-! ## List-level facts for the sanitizer -/

theorem dropWhile_eq_self_of_head {p : Char → Bool} {l : List Char}
    (h : ∀ x, l.head? = some x → p x = false) : l.dropWhile p = l := by
  cases l with
  | nil => rfl
  | cons c cs => rw [List.dropWhile_cons_of_neg (by simp [h c rfl])]

theorem trimEnds_eq_self_of_ends {p : Char → Bool} {l : List Char}
    (h1 : ∀ x, l.head? = some x → p x = false)
    (h2 : ∀ x, l.getLast? = some x → p x = false) : trimEnds p l = l := by
  unfold trimEnds
  rw [dropWhile_eq_self_of_head h1]
  rw [dropWhile_eq_self_of_head (by simpa using h2)]
  exact l.reverse_reverse

theorem trimEnds_eq_self_of_all {p : Char → Bool} {l : List Char}
    (h : ∀ c ∈ l, p c = false) : trimEnds p l = l :=
  trimEnds_eq_self_of_ends
    (fun x hx => h x (by cases l <;> simp_all))
    (fun x hx => h x (List.mem_of_getLast?_eq_some hx))

theorem mem_trimEnds {p : Char → Bool} {l : List Char} {c : Char}
    (h : c ∈ trimEnds p l) : c ∈ l := by
  unfold trimEnds at h
  rw [List.mem_reverse] at h
  have h2 := (List.dropWhile_sublist p).subset h
  rw [List.mem_reverse] at h2
  exact (List.dropWhile_sublist p).subset h2

theorem getLast?_suffix {l s : List Char} (hs : s <:+ l) (hne : s ≠ []) :
    s.getLast? = l.getLast? := by
  obtain ⟨t, rfl⟩ := hs
  exact (List.getLast?_append_of_ne_nil t hne).symm

theorem head?_trimEnds {p : Char → Bool} {l : List Char} {x : Char}
    (h : (trimEnds p l).head? = some x) : p x = false := by
  unfold trimEnds at h
  rw [List.head?_reverse] at h
  have hne : (((l.dropWhile p).reverse).dropWhile p) ≠ [] := by
    intro hnil
    rw [hnil] at h
    simp at h
  rw [getLast?_suffix (List.dropWhile_suffix p) hne] at h
  rw [List.getLast?_reverse] at h
  have := List.head?_dropWhile_not p l
  rw [h] at this
  simpa using this

theorem getLast?_trimEnds {p : Char → Bool} {l : List Char} {x : Char}
    (h : (trimEnds p l).getLast? = some x) : p x = false := by
  unfold trimEnds at h
  rw [List.getLast?_reverse] at h
  have := List.head?_dropWhile_not p (l.dropWhile p).reverse
  rw [h] at this
  simpa using this

theorem mem_collapseAux {b : Bool} {l : List Char} {c : Char}
    (h : c ∈ collapseAux b l) : c = '_' ∨ (c ∈ l ∧ pySpace c = false) := by
  induction l generalizing b with
  | nil => simp [collapseAux] at h
  | cons d rest ih =>
    rw [collapseAux] at h
    split at h
    · split at h
      · rcases ih h with h' | h'
        · exact Or.inl h'
        · exact Or.inr ⟨List.mem_cons_of_mem d h'.1, h'.2⟩
      · rcases List.mem_cons.1 h with h' | h'
        · exact Or.inl h'
        · rcases ih h' with h'' | h''
          · exact Or.inl h''
          · exact Or.inr ⟨List.mem_cons_of_mem d h''.1, h''.2⟩
    · rcases List.mem_cons.1 h with h' | h'
      · subst h'
        rename_i hd
        exact Or.inr ⟨List.mem_cons_self _ _, Bool.not_eq_true _ ▸ Bool.of_not_eq_true hd⟩
      · rcases ih h' with h'' | h''
        · exact Or.inl h''
        · exact Or.inr ⟨List.mem_cons_of_mem d h''.1, h''.2⟩

theorem collapseAux_eq_self {l : List Char} (h : ∀ c ∈ l, pySpace c = false) :
    ∀ b, collapseAux b l = l := by
  induction l with
  | nil => intro b; rfl
  | cons d rest ih =>
    intro b
    rw [collapseAux]
    rw [if_neg (by simp [h d (List.mem_cons_self _ _)])]
    rw [ih (fun c hc => h c (List.mem_cons_of_mem d hc))]

theorem map_eq_self_of {f : Char → Char} {l : List Char}
    (h : ∀ c ∈ l, f c = c) : l.map f = l := by
  induction l with
  | nil => rfl
  | cons d rest ih =>
    rw [List.map_cons, h d (List.mem_cons_self _ _),
      ih (fun c hc => h c (List.mem_cons_of_mem d hc))]

/-! ## Invariants of the sanitizer output -/

theorem slugChars_mem {l : List Char} {c : Char} (h : c ∈ slugChars l) :
    keepChar c = true ∧ pySpace c = false ∧ c ≠ '.' ∧ Char.toLower c = c := by
  unfold slugChars at h
  rw [List.mem_map] at h
  obtain ⟨c0, hc0, rfl⟩ := h
  have hc1 := mem_trimEnds hc0
  rw [List.mem_filter] at hc1
  obtain ⟨hc2, hkeep⟩ := hc1
  have hc3 := mem_collapseAux hc2
  have hspace : pySpace c0 = false := by
    rcases hc3 with h' | h'
    · rw [h']; rfl
    · exact h'.2
  have hdot : c0 ≠ '.' := by
    rcases hc3 with h' | h'
    · rw [h']; decide
    · have hmem := h'.1
      rw [List.mem_filter] at hmem
      have hb := hmem.2
      simp only [Bool.not_eq_true', decide_eq_false_iff_not] at hb
      exact hb
  refine ⟨toLower_keep hkeep, ?_, ?_, toLower_idem c0⟩
  · rw [toLower_pySpace]; exact hspace
  · intro hd; exact hdot (toLower_dot hd)

theorem slugChars_head {l : List Char} {x : Char}
    (h : (slugChars l).head? = some x) : stripChar x = false := by
  unfold slugChars at h
  rw [List.head?_map] at h
  cases hx : (trimEnds stripChar
      (List.filter keepChar (collapseAux false
        ((trimEnds pySpace l).filter (fun c => !(c = '.' : Bool)))))).head? with
  | none => rw [hx] at h; simp at h
  | some x0 =>
    rw [hx] at h
    simp only [Option.map_some'] at h
    injection h with h
    subst h
    have h0 := head?_trimEnds hx
    cases hb : stripChar (Char.toLower x0) with
    | false => rfl
    | true => exact absurd (toLower_strip hb) (by rw [h0]; exact Bool.false_ne_true)

theorem slugChars_getLast {l : List Char} {x : Char}
    (h : (slugChars l).getLast? = some x) : stripChar x = false := by
  unfold slugChars at h
  rw [List.getLast?_map] at h
  cases hx : (trimEnds stripChar
      (List.filter keepChar (collapseAux false
        ((trimEnds pySpace l).filter (fun c => !(c = '.' : Bool)))))).getLast? with
  | none => rw [hx] at h; simp at h
  | some x0 =>
    rw [hx] at h
    simp only [Option.map_some'] at h
    injection h with h
    subst h
    have h0 := getLast?_trimEnds hx
    cases hb : stripChar (Char.toLower x0) with
    | false => rfl
    | true => exact absurd (toLower_strip hb) (by rw [h0]; exact Bool.false_ne_true)

theorem slugChars_idem (l : List Char) : slugChars (slugChars l) = slugChars l := by
  have h1 : trimEnds pySpace (slugChars l) = slugChars l :=
    trimEnds_eq_self_of_all (fun c hc => (slugChars_mem hc).2.1)
  have h2 : (slugChars l).filter (fun c => !(c = '.' : Bool)) = slugChars l :=
    List.filter_eq_self.2 (fun c hc => by
      simp only [Bool.not_eq_true', decide_eq_false_iff_not]
      exact (slugChars_mem hc).2.2.1)
  have h3 : collapseAux false (slugChars l) = slugChars l :=
    collapseAux_eq_self (fun c hc => (slugChars_mem hc).2.1) false
  have h4 : (slugChars l).filter keepChar = slugChars l :=
    List.filter_eq_self.2 (fun c hc => (slugChars_mem hc).1)
  have h5 : trimEnds stripChar (slugChars l) = slugChars l :=
    trimEnds_eq_self_of_ends
      (fun x hx => slugChars_head hx) (fun x hx => slugChars_getLast hx)
  have h6 : (slugChars l).map Char.toLower = slugChars l :=
    map_eq_self_of (fun c hc => (slugChars_mem hc).2.2.2)
  conv_lhs => rw [slugChars, h1, h2, h3, h4, h5, h6]

/-- C7 counterexample: sanitizing the string consisting of one dot yields
the empty token, but sanitizing that result again yields `None` (the
Python function falls off the `if string:` guard on a falsy input), so
the sanitizer is not idempotent on every input string. -/
theorem claim_C7_counterexample :
    slugify "." = some "" ∧ slugifyO (slugify ".") = none ∧
    slugifyO (slugify ".") ≠ slugify "." :=
  ⟨rfl, rfl, by decide⟩

/-- C7 (amended): the sanitizer is idempotent on every input string whose
single sanitization is not the empty token: when `slugify s` is not
`some ""`, re-sanitizing the result returns it unchanged (inputs whose
sanitization is empty, such as a lone dot, re-sanitize to `None`). -/
theorem claim_C7_amended (s : String) (h : slugify s ≠ some "") :
    slugifyO (slugify s) = slugify s := by
  by_cases hs : s = ""
  · subst hs; rfl
  · rw [slugify, if_neg hs]
    rw [slugify, if_neg hs] at h
    show slugify (String.mk (slugChars s.data)) = some (String.mk (slugChars s.data))
    rw [slugify, if_neg (fun hh => h (by rw [hh]))]
    rw [show (String.mk (slugChars s.data)).data = slugChars s.data from rfl]
    rw [slugChars_idem]

theorem claim_C7_amended_witness :
    slugifyO (slugify " Hello  World.txt ") = slugify " Hello  World.txt " :=
  claim_C7_amended " Hello  World.txt " (by decide)

/-! ## Index and update helpers -/

theorem getD_set_ne (l : List String) (j i : Nat) (v : String) (h : j ≠ i) :
    (l.set j v).getD i "" = l.getD i "" := by
  rw [List.getD_eq_getElem?_getD, List.getD_eq_getElem?_getD, List.getElem?_set_ne h]

theorem getD_set_self (l : List String) (i : Nat) (v : String) (h : i < l.length) :
    (l.set i v).getD i "" = v := by
  rw [List.getD_eq_getElem?_getD, List.getElem?_set_self h]
  rfl

theorem pyIndex_lt_length {names : List (Option String)} {key : Option String}
    (h : key ∈ names) : pyIndex names key < names.length :=
  List.findIdx_lt_length.2 ⟨key, h, by simp⟩

theorem getD_pyIndex {names : List (Option String)} {key : Option String}
    (h : key ∈ names) : names.getD (pyIndex names key) none = key := by
  have hlt := pyIndex_lt_length h
  rw [List.getD_eq_getElem?_getD, List.getElem?_eq_getElem hlt]
  have := List.findIdx_getElem (w := hlt)
  simpa using this

theorem getD_eq_getElem {α : Type} (l : List α) (d : α) {i : Nat} (hi : i < l.length) :
    l.getD i d = l.get ⟨i, hi⟩ := by
  rw [List.getD_eq_getElem?_getD, List.getElem?_eq_getElem hi]
  rfl

theorem pyIndex_ne_of_earlier {names : List (Option String)} {j i : Nat}
    (hj : j < names.length) (hij : i < j)
    (heq : names.getD i none = names.getD j none) :
    ∀ key, pyIndex names key ≠ j := by
  intro key hk
  have hk' : List.findIdx (fun s => s == key) names = j := hk
  have hjget : (names.get ⟨j, hj⟩ == key) = true := by
    have := List.findIdx_getElem (w := hk' ▸ hj)
    simpa [hk', List.get_eq_getElem] using this
  have higet : (names.get ⟨i, Nat.lt_trans hij hj⟩ == key) = false := by
    have := List.not_of_lt_findIdx (hk' ▸ hij)
    simpa [List.get_eq_getElem] using this
  rw [beq_iff_eq] at hjget
  rw [beq_eq_false_iff_ne] at higet
  apply higet
  rw [getD_eq_getElem names none (Nat.lt_trans hij hj),
    getD_eq_getElem names none hj] at heq
  rw [heq, hjget]

theorem pyIndex_getElem_nodup {names : List (Option String)} {i : Nat}
    (hnodup : names.Nodup) (hi : i < names.length) :
    pyIndex names (names.getD i none) = i := by
  have hkey : names.getD i none ∈ names := by
    rw [getD_eq_getElem names none hi]
    exact names.get_mem i hi
  have hget := getD_pyIndex hkey
  have hlt := pyIndex_lt_length hkey
  have h2 : names.get ⟨pyIndex names (names.getD i none), hlt⟩ = names.get ⟨i, hi⟩ := by
    rw [← getD_eq_getElem names none hlt, ← getD_eq_getElem names none hi]
    exact hget
  exact congrArg Fin.val ((List.Nodup.get_inj_iff hnodup).1 h2)

/-! ## Pointwise facts about the inference pass -/

theorem mapM_length {f : Column → Except PyErr String} :
    ∀ {cols : List Column} {ts : List String},
      cols.mapM f = .ok ts → ts.length = cols.length := by
  intro cols
  induction cols with
  | nil => intro ts h; simp [List.mapM, List.mapM.loop] at h; simp [← h]
  | cons c rest ih =>
    intro ts h
    rw [List.mapM_cons] at h
    cases hc : f c with
    | error e => rw [hc] at h; simp at h
    | ok t =>
      rw [hc] at h
      simp only [exceptBind_ok] at h
      cases hr : rest.mapM f with
      | error e => rw [hr] at h; simp [Except.bind] at h
      | ok ts' =>
        rw [hr] at h
        simp only [exceptBind_ok, exceptPure, Except.ok.injEq] at h
        rw [← h]
        simp [ih hr]

theorem mapM_getD {f : Column → Except PyErr String} :
    ∀ {cols : List Column} {ts : List String} {i : Nat},
      cols.mapM f = .ok ts → i < cols.length →
      f (cols.getD i dummyCol) = .ok (ts.getD i "") := by
  intro cols
  induction cols with
  | nil => intro ts i h hi; simp at hi
  | cons c rest ih =>
    intro ts i h hi
    rw [List.mapM_cons] at h
    cases hc : f c with
    | error e => rw [hc] at h; simp at h
    | ok t =>
      rw [hc] at h
      simp only [exceptBind_ok] at h
      cases hr : rest.mapM f with
      | error e => rw [hr] at h; simp [Except.bind] at h
      | ok ts' =>
        rw [hr] at h
        simp only [exceptBind_ok, exceptPure, Except.ok.injEq] at h
        subst h
        cases i with
        | zero => simpa using hc
        | succ i' =>
          simp only [List.getD_cons_succ]
          exact ih hr (Nat.lt_of_succ_lt_succ hi)

theorem sqlTypeOf_error {vm : Bool} {col : Column} {e : PyErr}
    (h : sqlTypeOf vm col = .error e) : e = .conversionNaN := by
  unfold sqlTypeOf at h
  split at h
  · split at h
    · simp at h
    · split at h <;> simp_all
  · split at h
    · split at h <;> simp at h
    · simp at h

theorem mapM_error {f : Column → Except PyErr String} {S : PyErr → Prop}
    (hstep : ∀ c e, f c = .error e → S e) :
    ∀ {cols : List Column} {e : PyErr}, cols.mapM f = .error e → S e := by
  intro cols
  induction cols with
  | nil => intro e h; simp [List.mapM, List.mapM.loop] at h
  | cons c rest ih =>
    intro e h
    rw [List.mapM_cons] at h
    cases hc : f c with
    | error e' =>
      rw [hc] at h
      simp only [exceptBind_error, Except.error.injEq] at h
      exact h ▸ hstep c e' hc
    | ok t =>
      rw [hc] at h
      simp only [exceptBind_ok] at h
      cases hr : rest.mapM f with
      | error e' =>
        rw [hr] at h
        simp only [exceptBind_error, Except.error.injEq] at h
        exact h ▸ ih hr
      | ok ts' => rw [hr] at h; simp at h

/-! ## Fold preservation and hit lemmas for the constraint passes -/

theorem nnStep_ok {names : List (Option String)} {ts : List String}
    {col : Option String} {u : List String} (h : nnStep names ts col = .ok u) :
    slugifyO col ∈ names ∧
    u = ts.set (pyIndex names (slugifyO col))
      (ts.getD (pyIndex names (slugifyO col)) "" ++ " NOT NULL") := by
  unfold nnStep at h
  split at h
  · rename_i hmem
    simp only [Except.ok.injEq] at h
    exact ⟨hmem, h.symm⟩
  · simp at h

theorem ovStep_ok {names : List (Option String)} {ts : List String}
    {kv : String × String} {u : List String} (h : ovStep names ts kv = .ok u) :
    slugify kv.1 ∈ names ∧ u = ts.set (pyIndex names (slugify kv.1)) kv.2 := by
  unfold ovStep at h
  split at h
  · rename_i hmem
    simp only [Except.ok.injEq] at h
    exact ⟨hmem, h.symm⟩
  · simp at h

theorem foldlM_preserve {β : Type} {step : List String → β → Except PyErr (List String)}
    {j : Nat} :
    ∀ {l : List β} {ts ts' : List String},
      (∀ u b u', b ∈ l → step u b = .ok u' →
        u'.getD j "" = u.getD j "" ∧ u'.length = u.length) →
      l.foldlM step ts = .ok ts' →
      ts'.getD j "" = ts.getD j "" ∧ ts'.length = ts.length := by
  intro l
  induction l with
  | nil => intro ts ts' _ h; simp [List.foldlM] at h; simp [h]
  | cons b rest ih =>
    intro ts ts' hstep h
    rw [List.foldlM_cons] at h
    cases hb : step ts b with
    | error e => rw [hb] at h; simp at h
    | ok u =>
      rw [hb] at h
      simp only [exceptBind_ok] at h
      have h1 := hstep ts b u (List.mem_cons_self _ _) hb
      have h2 := ih (fun u1 b1 u1' hb1 hs1 =>
        hstep u1 b1 u1' (List.mem_cons_of_mem b hb1) hs1) h
      exact ⟨h2.1.trans h1.1, h2.2.trans h1.2⟩

theorem nnFold_hit {names : List (Option String)} {x : Option String} {i : Nat}
    (hxnames : x ∈ names) (hxi : pyIndex names x = i) :
    ∀ {l : List (Option String)} {ts ts' : List String},
      l.Nodup → (∀ s ∈ l, slugifyO s = s) → x ∈ l →
      l.foldlM (nnStep names) ts = .ok ts' → i < ts.length →
      ts'.getD i "" = ts.getD i "" ++ " NOT NULL" := by
  have hxget : names.getD i none = x := hxi ▸ getD_pyIndex hxnames
  intro l
  induction l with
  | nil => intro ts ts' _ _ hx; simp at hx
  | cons s rest ih =>
    intro ts ts' hnd hstab hx hfold hilen
    rw [List.foldlM_cons] at hfold
    cases hs : nnStep names ts s with
    | error e => rw [hs] at hfold; simp at hfold
    | ok u =>
      rw [hs] at hfold
      simp only [exceptBind_ok] at hfold
      obtain ⟨hmem, hu⟩ := nnStep_ok hs
      have hstabs : slugifyO s = s := hstab s (List.mem_cons_self _ _)
      rw [hstabs] at hmem hu
      rcases List.mem_cons.1 hx with heq | hxrest
      · have hset : u.getD i "" = ts.getD i "" ++ " NOT NULL" := by
          rw [hu, ← heq, hxi]
          exact getD_set_self ts i _ hilen
        have hpres := foldlM_preserve (l := rest)
          (fun u1 b u1' hb hs1 => by
            obtain ⟨hm1, hu1⟩ := nnStep_ok hs1
            have hst1 : slugifyO b = b := hstab b (List.mem_cons_of_mem _ hb)
            rw [hst1] at hm1 hu1
            have hbne : b ≠ x := by
              intro hbs
              exact (List.nodup_cons.1 hnd).1 (by rw [← heq]; rw [← hbs]; exact hb)
            have hidx : pyIndex names b ≠ i := by
              intro hbi
              exact hbne ((hbi ▸ getD_pyIndex hm1).symm.trans hxget)
            rw [hu1]
            exact ⟨getD_set_ne _ _ _ _ hidx, List.length_set _ _ _⟩) hfold
        rw [hpres.1, hset]
      · have hsne : s ≠ x := by
          intro hsx
          exact (List.nodup_cons.1 hnd).1 (by rw [hsx]; exact hxrest)
        have hidx : pyIndex names s ≠ i := by
          intro hsi
          exact hsne ((hsi ▸ getD_pyIndex hmem).symm.trans hxget)
        have hlen : u.length = ts.length := hu ▸ List.length_set _ _ _
        have hpre : u.getD i "" = ts.getD i "" := by
          rw [hu]
          exact getD_set_ne _ _ _ _ hidx
        rw [ih (List.nodup_cons.1 hnd).2
          (fun c hc => hstab c (List.mem_cons_of_mem _ hc)) hxrest hfold
          (hlen ▸ hilen), hpre]

theorem ovFold_ok_mem {names : List (Option String)} :
    ∀ {ov : List (String × String)} {ts ts' : List String},
      ov.foldlM (ovStep names) ts = .ok ts' →
      ∀ kv ∈ ov, slugify kv.1 ∈ names := by
  intro ov
  induction ov with
  | nil => intro ts ts' _ kv hkv; simp at hkv
  | cons kv0 rest ih =>
    intro ts ts' hfold kv hkv
    rw [List.foldlM_cons] at hfold
    cases h0 : ovStep names ts kv0 with
    | error e => rw [h0] at hfold; simp at hfold
    | ok u =>
      rw [h0] at hfold
      simp only [exceptBind_ok] at hfold
      rcases List.mem_cons.1 hkv with heq | hkvrest
      · exact heq ▸ (ovStep_ok h0).1
      · exact ih hfold kv hkvrest

theorem ovFold_hit {names : List (Option String)} {kv : String × String}
    (hkvnames : slugify kv.1 ∈ names) :
    ∀ {ov : List (String × String)} {ts ts' : List String},
      (ov.map fun z => slugify z.1).Nodup → kv ∈ ov →
      ov.foldlM (ovStep names) ts = .ok ts' →
      pyIndex names (slugify kv.1) < ts.length →
      ts'.getD (pyIndex names (slugify kv.1)) "" = kv.2 := by
  intro ov
  induction ov with
  | nil => intro ts ts' _ hkv; simp at hkv
  | cons kv0 rest ih =>
    intro ts ts' hnd hkv hfold hlen
    rw [List.foldlM_cons] at hfold
    cases h0 : ovStep names ts kv0 with
    | error e => rw [h0] at hfold; simp at hfold
    | ok u =>
      rw [h0] at hfold
      simp only [exceptBind_ok] at hfold
      obtain ⟨hm0, hu0⟩ := ovStep_ok h0
      have hndrest : (rest.map fun z => slugify z.1).Nodup :=
        (List.nodup_cons.1 (by simpa using hnd)).2
      have hnotin : slugify kv0.1 ∉ rest.map fun z => slugify z.1 :=
        (List.nodup_cons.1 (by simpa using hnd)).1
      rcases List.mem_cons.1 hkv with heq | hkvrest
      · have hset : u.getD (pyIndex names (slugify kv.1)) "" = kv.2 := by
          rw [hu0, ← heq]
          exact getD_set_self ts _ _ hlen
        have hpres := foldlM_preserve (l := rest)
          (fun u1 b u1' hb hs1 => by
            obtain ⟨hm1, hu1⟩ := ovStep_ok hs1
            have hslugne : slugify b.1 ≠ slugify kv.1 := by
              intro hss
              apply hnotin
              rw [List.mem_map]
              exact ⟨b, hb, by rw [hss, ← heq]⟩
            have hidx : pyIndex names (slugify b.1) ≠
                pyIndex names (slugify kv.1) := by
              intro hbi
              exact hslugne ((hbi ▸ getD_pyIndex hm1).symm.trans
                (getD_pyIndex hkvnames))
            rw [hu1]
            exact ⟨getD_set_ne _ _ _ _ hidx, List.length_set _ _ _⟩) hfold
        rw [hpres.1, hset]
      · have hslugne : slugify kv0.1 ≠ slugify kv.1 := by
          intro hss
          apply hnotin
          rw [List.mem_map]
          exact ⟨kv, hkvrest, hss.symm⟩
        have hlen' : u.length = ts.length := hu0 ▸ List.length_set _ _ _
        have hidx : pyIndex names (slugify kv0.1) ≠
            pyIndex names (slugify kv.1) := by
          intro hbi
          exact hslugne ((hbi ▸ getD_pyIndex hm0).symm.trans
            (getD_pyIndex hkvnames))
        exact ih hndrest hkvrest hfold (by omega)

theorem ovFold_error_missing {names : List (Option String)} :
    ∀ {ov : List (String × String)},
      (∃ kv ∈ ov, slugify kv.1 ∉ names) →
      ∀ ts, ov.foldlM (ovStep names) ts = .error .overwriteUnknown := by
  intro ov
  induction ov with
  | nil => rintro ⟨kv, hkv, _⟩; simp at hkv
  | cons kv0 rest ih =>
    rintro ⟨kv, hkv, hmiss⟩ ts
    rw [List.foldlM_cons]
    by_cases h0 : slugify kv0.1 ∈ names
    · rw [show ovStep names ts kv0 =
          .ok (ts.set (pyIndex names (slugify kv0.1)) kv0.2) by
        unfold ovStep; rw [if_pos h0]]
      simp only [exceptBind_ok]
      rcases List.mem_cons.1 hkv with heq | hkvrest
      · exact absurd (heq ▸ h0) hmiss
      · exact ih ⟨kv, hkvrest, hmiss⟩ _
    · rw [show ovStep names ts kv0 = .error .overwriteUnknown by
        unfold ovStep; rw [if_neg h0]]
      rfl

/-! ## Destructing a successful run -/

theorem applyPkey_ok {pkey : PyVal} {names nn : List (Option String)}
    {ts ts1 : List String} (h : applyPkey pkey names nn ts = .ok ts1) :
    (pkey = .pyNone ∧ ts1 = ts) ∨
    (∃ p, pkey = .pyStr p ∧ slugify p ∈ names ∧ slugify p ∈ nn ∧
      ts1 = ts.set (pyIndex names (slugify p))
        (ts.getD (pyIndex names (slugify p)) "" ++ " PRIMARY KEY")) := by
  cases pkey with
  | pyNone =>
    simp only [applyPkey, Except.ok.injEq] at h
    exact Or.inl ⟨rfl, h.symm⟩
  | pyStr p =>
    simp only [applyPkey] at h
    split at h
    · split at h
      · simp only [Except.ok.injEq] at h
        exact Or.inr ⟨p, rfl, by assumption, by assumption, h.symm⟩
      · simp at h
    · simp at h
  | pyBool b => simp [applyPkey] at h
  | pyInt n => simp [applyPkey] at h

theorem scriptColumns_ok_destruct {df : Df} {pkey : PyVal} {vm : Bool} {inf : PyVal}
    {ov : Option (List (String × String))} {names : List (Option String)}
    {types : List String}
    (h : scriptColumns df pkey vm inf ov = .ok (names, types)) :
    names = sqlColNames df ∧
    ∃ ts0 ts1 ts2, inferTypes vm df.cols = .ok ts0 ∧
      applyPkey pkey (sqlColNames df) (notNullSlugs df) ts0 = .ok ts1 ∧
      applyNotNull inf pkey (sqlColNames df) (notNullSlugs df) ts1 = .ok ts2 ∧
      applyOverwrite ov (sqlColNames df) ts2 = .ok types := by
  unfold scriptColumns at h
  split at h
  · simp at h
  · split at h
    · simp at h
    · cases h0 : inferTypes vm df.cols with
      | error e => rw [h0] at h; simp at h
      | ok ts0 =>
        rw [h0] at h
        simp only [] at h
        cases h1 : applyPkey pkey (sqlColNames df) (notNullSlugs df) ts0 with
        | error e => rw [h1] at h; simp at h
        | ok ts1 =>
          rw [h1] at h
          simp only [] at h
          cases h2 : applyNotNull inf pkey (sqlColNames df) (notNullSlugs df) ts1 with
          | error e => rw [h2] at h; simp at h
          | ok ts2 =>
            rw [h2] at h
            simp only [] at h
            cases h3 : applyOverwrite ov (sqlColNames df) ts2 with
            | error e => rw [h3] at h; simp at h
            | ok ts3 =>
              rw [h3] at h
              simp only [Except.ok.injEq, Prod.mk.injEq] at h
              refine ⟨h.1.symm, ts0, ts1, ts2, ?_, ?_, ?_, ?_⟩ <;> simp_all

theorem sqlColNames_length (df : Df) : (sqlColNames df).length = df.cols.length := by
  simp [sqlColNames]

/-- C9: when two distinct raw column names sanitize to the same identifier,
no duplicate-name error is raised (uniqueness is checked on raw names
before sanitization), and any primary-key, not-null or override marking is
applied only to the first column bearing the shared sanitized identifier:
every later column bearing it keeps its bare inferred type untouched. -/
theorem claim_C9 (df : Df) (tn : Option String) (pkey : PyVal) (vm : Bool) (inf : PyVal)
    (ov : Option (List (String × String)))
    (hraw : (df.cols.map Column.name).Nodup) :
    create_table_sql_script df tn pkey vm inf ov ≠ .error .duplicateColumns ∧
    (∀ names types, scriptColumns df pkey vm inf ov = .ok (names, types) →
      ∀ j, j < df.cols.length →
      (∃ i, i < j ∧ names.getD i none = names.getD j none) →
      sqlTypeOf vm (df.cols.getD j dummyCol) = .ok (types.getD j "")) := by
  constructor
  · intro hcon
    rw [create_error_eq_scriptColumns (by decide) (by decide)] at hcon
    unfold scriptColumns at hcon
    rw [if_neg (dupGuard_pass hraw)] at hcon
    split at hcon
    · simp at hcon
    · cases h0 : inferTypes vm df.cols with
      | error e =>
        rw [h0] at hcon
        simp only [Except.error.injEq] at hcon
        have := mapM_error (S := fun e => e = .conversionNaN)
          (fun c e hc => sqlTypeOf_error hc) h0
        simp_all
      | ok ts0 =>
        rw [h0] at hcon
        simp only [] at hcon
        cases h1 : applyPkey pkey (sqlColNames df) (notNullSlugs df) ts0 with
        | error e =>
          rw [h1] at hcon
          simp only [Except.error.injEq] at hcon
          rcases applyPkey_error h1 with h | h | h <;> simp_all
        | ok ts1 =>
          rw [h1] at hcon
          simp only [] at hcon
          cases h2 : applyNotNull inf pkey (sqlColNames df) (notNullSlugs df) ts1 with
          | error e =>
            rw [h2] at hcon
            simp only [Except.error.injEq] at hcon
            have := applyNotNull_error h2
            simp_all
          | ok ts2 =>
            rw [h2] at hcon
            simp only [] at hcon
            cases h3 : applyOverwrite ov (sqlColNames df) ts2 with
            | error e =>
              rw [h3] at hcon
              simp only [Except.error.injEq] at hcon
              have := applyOverwrite_error h3
              simp_all
            | ok ts3 =>
              rw [h3] at hcon
              simp at hcon
  · intro names types hok j hj hdup
    obtain ⟨hnames, ts0, ts1, ts2, h0, h1, h2, h3⟩ := scriptColumns_ok_destruct hok
    subst hnames
    obtain ⟨i, hij, hieq⟩ := hdup
    have hjn : j < (sqlColNames df).length := by rw [sqlColNames_length]; exact hj
    have huntouched : ∀ key, pyIndex (sqlColNames df) key ≠ j :=
      pyIndex_ne_of_earlier hjn hij hieq
    have hlen0 : ts0.length = df.cols.length := mapM_length h0
    have hpk : ts1.getD j "" = ts0.getD j "" ∧ ts1.length = ts0.length := by
      rcases applyPkey_ok h1 with ⟨_, rfl⟩ | ⟨p, _, hm, _, rfl⟩
      · exact ⟨rfl, rfl⟩
      · exact ⟨getD_set_ne _ _ _ _ (huntouched (slugify p)),
          List.length_set _ _ _⟩
    have hnn : ts2.getD j "" = ts1.getD j "" ∧ ts2.length = ts1.length := by
      unfold applyNotNull at h2
      split at h2
      · exact foldlM_preserve
          (fun u b u' hb hs => by
            obtain ⟨hm, hu⟩ := nnStep_ok hs
            rw [hu]
            exact ⟨getD_set_ne _ _ _ _ (huntouched (slugifyO b)),
              List.length_set _ _ _⟩) h2
      · simp only [Except.ok.injEq] at h2
        rw [← h2]
        exact ⟨rfl, rfl⟩
    have hov : types.getD j "" = ts2.getD j "" := by
      unfold applyOverwrite at h3
      cases ov with
      | none =>
        simp only [Except.ok.injEq] at h3
        rw [← h3]
      | some l =>
        exact (foldlM_preserve
          (fun u b u' hb hs => by
            obtain ⟨hm, hu⟩ := ovStep_ok hs
            rw [hu]
            exact ⟨getD_set_ne _ _ _ _ (huntouched (slugify b.1)),
              List.length_set _ _ _⟩) h3).1
    rw [hov, hnn.1, hpk.1]
    exact mapM_getD h0 hj

theorem claim_C9_witness :
    create_table_sql_script ⟨[⟨"a", .int64, [.intV 2]⟩, ⟨"a.", .int64, [.intV 3]⟩]⟩
        none .pyNone false (.pyBool true) none ≠ .error .duplicateColumns ∧
    sqlTypeOf false (([⟨"a", .int64, [.intV 2]⟩, ⟨"a.", .int64, [.intV 3]⟩] :
        List Column).getD 1 dummyCol) =
      .ok ((["BIGINT NOT NULL NOT NULL", "BIGINT"] : List String).getD 1 "") := by
  have h := claim_C9 ⟨[⟨"a", .int64, [.intV 2]⟩, ⟨"a.", .int64, [.intV 3]⟩]⟩
    none .pyNone false (.pyBool true) none (by decide)
  refine ⟨h.1, ?_⟩
  exact h.2 [some "a", some "a"] ["BIGINT NOT NULL NOT NULL", "BIGINT"]
    (by rfl) 1 (by decide) ⟨0, by decide, by rfl⟩

/-! ## Shapes of inferred types -/

theorem sqlTypeOf_ok_shape {vm : Bool} {c : Column} {t : String}
    (h : sqlTypeOf vm c = .ok t) :
    t = "TEXT" ∨ t = "BIT" ∨ t = "SMALLINT" ∨ t = "INT" ∨ t = "BIGINT" ∨
    t = "NUMERIC" ∨ ∃ n : Nat, t = "VARCHAR(" ++ toString n ++ ")" := by
  unfold sqlTypeOf at h
  split at h
  · split at h
    · simp only [Except.ok.injEq] at h
      exact Or.inl h.symm
    · split at h
      · rename_i n heq
        simp only [Except.ok.injEq] at h
        exact Or.inr (Or.inr (Or.inr (Or.inr (Or.inr (Or.inr ⟨n, h.symm⟩)))))
      · simp at h
  · split at h
    · split at h
      · simp only [Except.ok.injEq] at h
        exact Or.inr (Or.inl h.symm)
      · simp only [Except.ok.injEq] at h
        unfold widthSqlType at h
        split at h
        · exact Or.inr (Or.inr (Or.inl h.symm))
        · split at h
          · exact Or.inr (Or.inr (Or.inr (Or.inl h.symm)))
          · split at h
            · exact Or.inr (Or.inr (Or.inr (Or.inr (Or.inl h.symm))))
            · exact Or.inr (Or.inr (Or.inr (Or.inr (Or.inr (Or.inl h.symm)))))
    · simp only [Except.ok.injEq] at h
      exact Or.inr (Or.inr (Or.inr (Or.inr (Or.inr (Or.inl h.symm)))))

theorem const_ne_notNull {t : String} (hlen : t.length ≤ 8) :
    ∀ pre, t ≠ pre ++ " NOT NULL" := by
  intro pre heq
  have hl := congrArg String.length heq
  rw [String.length_append] at hl
  have h9 : (" NOT NULL" : String).length = 9 := rfl
  omega

theorem lastChar_ne_notNull {t : String} (hlast : t.data.getLast? = some ')') :
    ∀ pre, t ≠ pre ++ " NOT NULL" := by
  intro pre heq
  have hd := congrArg String.data heq
  rw [String.data_append] at hd
  have h1 := hlast
  rw [hd, List.getLast?_append] at h1
  rw [show (" NOT NULL" : String).data.getLast? = some 'L' from rfl] at h1
  simp at h1

theorem sqlTypeOf_ne_notNull {vm : Bool} {c : Column} {t : String}
    (h : sqlTypeOf vm c = .ok t) : ∀ pre, t ≠ pre ++ " NOT NULL" := by
  rcases sqlTypeOf_ok_shape h with h' | h' | h' | h' | h' | h' | ⟨n, h'⟩ <;> subst h'
  · exact const_ne_notNull (by decide)
  · exact const_ne_notNull (by decide)
  · exact const_ne_notNull (by decide)
  · exact const_ne_notNull (by decide)
  · exact const_ne_notNull (by decide)
  · exact const_ne_notNull (by decide)
  · apply lastChar_ne_notNull
    rw [String.data_append, List.getLast?_append]
    rfl

/-! ## Facts about the not-null slug list -/

theorem sqlColNames_getD {df : Df} {i : Nat} (hi : i < df.cols.length) :
    (sqlColNames df).getD i none = slugify ((df.cols.getD i dummyCol).name) := by
  have hi' : i < (sqlColNames df).length := by rw [sqlColNames_length]; exact hi
  rw [getD_eq_getElem _ none hi', getD_eq_getElem _ dummyCol hi]
  simp [sqlColNames]

theorem notNullSlugs_sublist (df : Df) : List.Sublist (notNullSlugs df) (sqlColNames df) := by
  unfold notNullSlugs sqlColNames
  exact List.Sublist.map _ (List.filter_sublist df.cols)

theorem notNullSlugs_mem {df : Df} {c : Column} (hc : c ∈ df.cols)
    (hnn : hasNoNull c = true) : slugify c.name ∈ notNullSlugs df := by
  unfold notNullSlugs
  rw [List.mem_map]
  exact ⟨c, List.mem_filter.2 ⟨hc, hnn⟩, rfl⟩

theorem getD_mem {α : Type} {l : List α} {i : Nat} (d : α) (hi : i < l.length) :
    l.getD i d ∈ l := by
  rw [getD_eq_getElem l d hi]
  exact l.get_mem i hi

theorem notNullSlugs_not_mem {df : Df} {i : Nat} (hi : i < df.cols.length)
    (hs : (sqlColNames df).Nodup)
    (hnull : hasNoNull (df.cols.getD i dummyCol) = false) :
    slugify ((df.cols.getD i dummyCol).name) ∉ notNullSlugs df := by
  intro hmem
  unfold notNullSlugs at hmem
  rw [List.mem_map] at hmem
  obtain ⟨c', hc', hslug⟩ := hmem
  rw [List.mem_filter] at hc'
  obtain ⟨hc'mem, hc'nn⟩ := hc'
  obtain ⟨i', hi', hgot⟩ := List.mem_iff_getElem.1 hc'mem
  have hlen : i < (sqlColNames df).length := by rw [sqlColNames_length]; exact hi
  have hlen' : i' < (sqlColNames df).length := by rw [sqlColNames_length]; exact hi'
  have hni' : (sqlColNames df).getD i' none = slugify c'.name := by
    rw [sqlColNames_getD hi', getD_eq_getElem _ dummyCol hi', List.get_eq_getElem, hgot]
  have hni : (sqlColNames df).getD i none = slugify c'.name := by
    rw [sqlColNames_getD hi, ← hslug]
  have heqidx : i' = i := by
    have h1 : (sqlColNames df).get ⟨i', hlen'⟩ = (sqlColNames df).get ⟨i, hlen⟩ := by
      rw [← getD_eq_getElem _ none hlen', ← getD_eq_getElem _ none hlen, hni', hni]
    exact congrArg Fin.val ((List.Nodup.get_inj_iff hs).1 h1)
  subst heqidx
  have hceq : c' = df.cols.getD i' dummyCol := by
    rw [getD_eq_getElem _ dummyCol hi', List.get_eq_getElem, hgot]
  rw [← hceq] at hnull
  rw [hnull] at hc'nn
  exact Bool.false_ne_true hc'nn

/-- C5 counterexample: the columns named a and a. have distinct raw names
but the same sanitized name a.  Both have zero missing values, there is no
primary key and no override and `infer_nulls` is true, yet the second
column's rendered type is the bare BIGINT with no NOT NULL (both NOT NULL
markings, one per matching entry, landed on the first column). -/
theorem claim_C5_counterexample :
    scriptColumns ⟨[⟨"a", .int64, [.intV 2]⟩, ⟨"a.", .int64, [.intV 3]⟩]⟩ .pyNone
        false (.pyBool true) none =
      .ok ([some "a", some "a"], ["BIGINT NOT NULL NOT NULL", "BIGINT"]) ∧
    hasNoNull ⟨"a.", .int64, [.intV 3]⟩ = true :=
  ⟨rfl, rfl⟩

/-- C5 (amended): under sanitized names that are pairwise distinct and
stable under re-sanitization, a successful call with `infer_nulls=True`
appends NOT NULL exactly as the claim says: a column with zero missing
values that is neither the primary-key target nor overridden gets
` NOT NULL` appended, and a column with a missing value (and no override)
keeps its bare inferred type, which never ends in ` NOT NULL`.  Without
those hypotheses the markings land on the first column bearing a shared
sanitized name, as the counterexample shows. -/
theorem claim_C5_amended (df : Df) (pkey : PyVal) (vm : Bool)
    (ov : Option (List (String × String)))
    (names : List (Option String)) (types : List String)
    (hs : (sqlColNames df).Nodup)
    (hstable : ∀ s ∈ sqlColNames df, slugifyO s = s)
    (hok : scriptColumns df pkey vm (.pyBool true) ov = .ok (names, types))
    (i : Nat) (hi : i < df.cols.length)
    (hnoov : ∀ l kv, ov = some l → kv ∈ l →
      slugify kv.1 ≠ slugify ((df.cols.getD i dummyCol).name)) :
    (hasNoNull (df.cols.getD i dummyCol) = true →
      (∀ p, pkey = .pyStr p → slugify p ≠ slugify ((df.cols.getD i dummyCol).name)) →
      ∃ pre, types.getD i "" = pre ++ " NOT NULL") ∧
    (hasNoNull (df.cols.getD i dummyCol) = false →
      sqlTypeOf vm (df.cols.getD i dummyCol) = .ok (types.getD i "") ∧
      ∀ pre, types.getD i "" ≠ pre ++ " NOT NULL") := by
  obtain ⟨hnames, ts0, ts1, ts2, h0, h1, h2, h3⟩ := scriptColumns_ok_destruct hok
  subst hnames
  have hcmem : df.cols.getD i dummyCol ∈ df.cols := getD_mem dummyCol hi
  have hin : i < (sqlColNames df).length := by rw [sqlColNames_length]; exact hi
  have hgetN : (sqlColNames df).getD i none =
      slugify ((df.cols.getD i dummyCol).name) := sqlColNames_getD hi
  have hxnames : slugify ((df.cols.getD i dummyCol).name) ∈ sqlColNames df := by
    rw [← hgetN]
    exact getD_mem none hin
  have hpyi : pyIndex (sqlColNames df) (slugify ((df.cols.getD i dummyCol).name)) = i := by
    rw [← hgetN]
    exact pyIndex_getElem_nodup hs hin
  have hlen0 : ts0.length = df.cols.length := mapM_length h0
  have hnnnodup : (notNullSlugs df).Nodup := (notNullSlugs_sublist df).nodup hs
  have hnnstab : ∀ s ∈ notNullSlugs df, slugifyO s = s := fun s hsm =>
    hstable s ((notNullSlugs_sublist df).subset hsm)
  have hovpres : ∀ {u u' : List String}, applyOverwrite ov (sqlColNames df) u = .ok u' →
      u'.getD i "" = u.getD i "" := by
    intro u u' hov
    unfold applyOverwrite at hov
    cases ov with
    | none =>
      simp only [Except.ok.injEq] at hov
      rw [← hov]
    | some l =>
      refine (foldlM_preserve (fun u1 b u1' hb hs1 => ?_) hov).1
      obtain ⟨hm1, hu1⟩ := ovStep_ok hs1
      have hne : slugify b.1 ≠ slugify ((df.cols.getD i dummyCol).name) :=
        hnoov l b rfl hb
      have hidx : pyIndex (sqlColNames df) (slugify b.1) ≠ i := by
        intro hbi
        exact hne ((hbi ▸ getD_pyIndex hm1).symm.trans hgetN)
      rw [hu1]
      exact ⟨getD_set_ne _ _ _ _ hidx, List.length_set _ _ _⟩
  constructor
  · intro hnonull hnopk
    have hxnn : slugify ((df.cols.getD i dummyCol).name) ∈ notNullSlugs df :=
      notNullSlugs_mem hcmem hnonull
    have hpk1 : ts1.getD i "" = ts0.getD i "" ∧ ts1.length = ts0.length := by
      rcases applyPkey_ok h1 with ⟨_, rfl⟩ | ⟨p, hpeq, hm, _, rfl⟩
      · exact ⟨rfl, rfl⟩
      · have hne := hnopk p hpeq
        have hidx : pyIndex (sqlColNames df) (slugify p) ≠ i := by
          intro hbi
          exact hne ((hbi ▸ getD_pyIndex hm).symm.trans hgetN)
        exact ⟨getD_set_ne _ _ _ _ hidx, List.length_set _ _ _⟩
    have hnn2 : ts2.getD i "" = ts1.getD i "" ++ " NOT NULL" := by
      unfold applyNotNull at h2
      rw [if_pos (by rfl)] at h2
      have hilen1 : i < ts1.length := by omega
      rcases applyPkey_ok h1 with ⟨hpnone, _⟩ | ⟨p, hpeq, hm, hmnn, _⟩
      · subst hpnone
        exact nnFold_hit hxnames hpyi hnnnodup hnnstab hxnn h2 hilen1
      · subst hpeq
        have hne := hnopk p rfl
        have hxerase : slugify ((df.cols.getD i dummyCol).name) ∈
            (notNullSlugs df).erase (slugify p) := by
          rw [List.mem_erase_of_ne (fun hh => hne hh.symm)]
          exact hxnn
        exact nnFold_hit hxnames hpyi
          ((List.erase_sublist _ _).nodup hnnnodup)
          (fun s hsm => hnnstab s (List.mem_of_mem_erase hsm))
          hxerase h2 hilen1
    refine ⟨ts1.getD i "", ?_⟩
    rw [hovpres h3, hnn2]
  · intro hnull
    have hxnotnn : slugify ((df.cols.getD i dummyCol).name) ∉ notNullSlugs df :=
      notNullSlugs_not_mem hi hs hnull
    have hpk1 : ts1.getD i "" = ts0.getD i "" ∧ ts1.length = ts0.length := by
      rcases applyPkey_ok h1 with ⟨_, rfl⟩ | ⟨p, hpeq, hm, hmnn, rfl⟩
      · exact ⟨rfl, rfl⟩
      · have hne : slugify p ≠ slugify ((df.cols.getD i dummyCol).name) := by
          intro hh
          exact hxnotnn (hh ▸ hmnn)
        have hidx : pyIndex (sqlColNames df) (slugify p) ≠ i := by
          intro hbi
          exact hne ((hbi ▸ getD_pyIndex hm).symm.trans hgetN)
        exact ⟨getD_set_ne _ _ _ _ hidx, List.length_set _ _ _⟩
    have hnn2 : ts2.getD i "" = ts1.getD i "" := by
      unfold applyNotNull at h2
      rw [if_pos (by rfl)] at h2
      have hsub : ∀ s, s ∈ (match pkey with
          | PyVal.pyNone => notNullSlugs df
          | PyVal.pyStr p => (notNullSlugs df).erase (slugify p)
          | _ => notNullSlugs df) → s ∈ notNullSlugs df := by
        intro s hsm
        cases pkey <;> first
          | exact hsm
          | exact List.mem_of_mem_erase hsm
      refine (foldlM_preserve (fun u1 b u1' hb hs1 => ?_) h2).1
      obtain ⟨hm1, hu1⟩ := nnStep_ok hs1
      have hbnn : b ∈ notNullSlugs df := hsub b hb
      have hstab1 : slugifyO b = b := hnnstab b hbnn
      rw [hstab1] at hm1 hu1
      have hbne : b ≠ slugify ((df.cols.getD i dummyCol).name) := by
        intro hh
        exact hxnotnn (hh ▸ hbnn)
      have hidx : pyIndex (sqlColNames df) b ≠ i := by
        intro hbi
        exact hbne ((hbi ▸ getD_pyIndex hm1).symm.trans hgetN)
      rw [hu1]
      exact ⟨getD_set_ne _ _ _ _ hidx, List.length_set _ _ _⟩
    have hfin : types.getD i "" = ts0.getD i "" := by
      rw [hovpres h3, hnn2, hpk1.1]
    have hinfer := mapM_getD h0 hi
    rw [hfin]
    exact ⟨hinfer, sqlTypeOf_ne_notNull hinfer⟩

theorem claim_C5_amended_witness :
    ∃ pre, (["BIGINT NOT NULL", "NUMERIC"] : List String).getD 0 "" =
      pre ++ " NOT NULL" :=
  (claim_C5_amended ⟨[⟨"a", .int64, [.intV 2]⟩, ⟨"b", .float64, [.missing]⟩]⟩
      .pyNone false none [some "a", some "b"] ["BIGINT NOT NULL", "NUMERIC"]
      (by decide) (by decide) rfl 0 (by decide)
      (fun l kv h => Option.noConfusion h)).1 rfl
    (fun p hp => PyVal.noConfusion hp)

theorem foldlM_length {β : Type} {step : List String → β → Except PyErr (List String)}
    (hstep : ∀ u b u', step u b = .ok u' → u'.length = u.length) :
    ∀ {l : List β} {ts ts' : List String},
      l.foldlM step ts = .ok ts' → ts'.length = ts.length := by
  intro l
  induction l with
  | nil => intro ts ts' h; simp [List.foldlM] at h; simp [h]
  | cons b rest ih =>
    intro ts ts' h
    rw [List.foldlM_cons] at h
    cases hb : step ts b with
    | error e => rw [hb] at h; simp at h
    | ok u =>
      rw [hb] at h
      simp only [exceptBind_ok] at h
      exact (ih h).trans (hstep ts b u hb)

theorem applyNotNull_length {inf pkey : PyVal} {names nn : List (Option String)}
    {ts ts' : List String} (h : applyNotNull inf pkey names nn ts = .ok ts') :
    ts'.length = ts.length := by
  unfold applyNotNull at h
  split at h
  · exact foldlM_length (fun u b u' hs => by
      obtain ⟨hm, hu⟩ := nnStep_ok hs
      rw [hu]
      exact List.length_set _ _ _) h
  · simp only [Except.ok.injEq] at h
    rw [← h]

theorem applyPkey_length {pkey : PyVal} {names nn : List (Option String)}
    {ts ts' : List String} (h : applyPkey pkey names nn ts = .ok ts') :
    ts'.length = ts.length := by
  rcases applyPkey_ok h with ⟨_, rfl⟩ | ⟨p, _, _, _, rfl⟩
  · rfl
  · exact List.length_set _ _ _

/-- C6 counterexample: with columns a and a. (same sanitized name) and an
override keyed by the raw column name a., the override lands on the first
column bearing the sanitized name: the rendered types are DATE for column
a and the untouched BIGINT for column a., so the column actually named in
`overwrite` does not receive the literal override string. -/
theorem claim_C6_counterexample :
    scriptColumns ⟨[⟨"a", .int64, [.intV 2]⟩, ⟨"a.", .int64, [.intV 3]⟩]⟩ .pyNone
        false (.pyBool false) (some [("a.", "DATE")]) =
      .ok ([some "a", some "a"], ["DATE", "BIGINT"]) := rfl

/-- C6 (amended): when the override keys have pairwise distinct sanitized
forms, a successful call gives the first dataset column bearing each key's
sanitized name exactly the literal override string as its whole type
(discarding whatever was inferred); and if some key's sanitized form
matches no sanitized column name while the same call without overrides
would succeed, the call fails with the unknown-override-column ValueError
and produces no output. -/
theorem claim_C6_amended (df : Df) (tn : Option String) (pkey : PyVal) (vm : Bool)
    (inf : PyVal) (ov : List (String × String))
    (hks : (ov.map fun kv => slugify kv.1).Nodup) :
    (∀ names types, scriptColumns df pkey vm inf (some ov) = .ok (names, types) →
      ∀ kv ∈ ov, slugify kv.1 ∈ names ∧
        types.getD (pyIndex names (slugify kv.1)) "" = kv.2) ∧
    ((∃ kv ∈ ov, slugify kv.1 ∉ sqlColNames df) →
      ∀ nt, scriptColumns df pkey vm inf none = .ok nt →
        create_table_sql_script df tn pkey vm inf (some ov) =
          .error .overwriteUnknown) := by
  constructor
  · intro names types hok kv hkv
    obtain ⟨hnames, ts0, ts1, ts2, h0, h1, h2, h3⟩ := scriptColumns_ok_destruct hok
    subst hnames
    unfold applyOverwrite at h3
    have hmem : slugify kv.1 ∈ sqlColNames df := ovFold_ok_mem h3 kv hkv
    have hlen2 : ts2.length = df.cols.length := by
      rw [applyNotNull_length h2, applyPkey_length h1, mapM_length h0]
    have hbound : pyIndex (sqlColNames df) (slugify kv.1) < ts2.length := by
      have := pyIndex_lt_length hmem
      rw [sqlColNames_length] at this
      omega
    exact ⟨hmem, ovFold_hit hmem hks hkv h3 hbound⟩
  · rintro ⟨kv, hkv, hmiss⟩ nt hoknone
    unfold create_table_sql_script
    unfold scriptColumns at hoknone ⊢
    by_cases hg1 : (df.cols.map Column.name).dedup.length <
        (df.cols.map Column.name).length
    · rw [if_pos hg1] at hoknone
      simp at hoknone
    · rw [if_neg hg1] at hoknone ⊢
      by_cases hg2 : (!(pyEq inf (.pyBool true) || pyEq inf (.pyBool false))) = true
      · rw [if_pos hg2] at hoknone
        simp at hoknone
      · rw [if_neg hg2] at hoknone ⊢
        cases h0 : inferTypes vm df.cols with
        | error e => rw [h0] at hoknone; simp at hoknone
        | ok ts0 =>
          rw [h0] at hoknone
          simp only [] at hoknone ⊢
          cases h1 : applyPkey pkey (sqlColNames df) (notNullSlugs df) ts0 with
          | error e => rw [h1] at hoknone; simp at hoknone
          | ok ts1 =>
            rw [h1] at hoknone
            simp only [] at hoknone ⊢
            cases h2 : applyNotNull inf pkey (sqlColNames df) (notNullSlugs df) ts1 with
            | error e => rw [h2] at hoknone; simp at hoknone
            | ok ts2 =>
              rw [h2] at hoknone
              simp only [] at hoknone ⊢
              rw [show applyOverwrite (some ov) (sqlColNames df) ts2 =
                  .error .overwriteUnknown from
                ovFold_error_missing ⟨kv, hkv, hmiss⟩ ts2]

theorem claim_C6_amended_witness :
    slugify "a" ∈ [some "a"] ∧
    (["DATE"] : List String).getD (pyIndex [some "a"] (slugify "a")) "" = "DATE" :=
  (claim_C6_amended ⟨[⟨"a", .int64, [.intV 2]⟩]⟩ none .pyNone false (.pyBool true)
      [("a", "DATE")] (by decide)).1 [some "a"] ["DATE"] rfl ("a", "DATE")
    (by decide)
